import Mathlib

/-!
Verification development for the template-builder core: the schema-driven
record validator (`validateAndNormalizeRecordData` in the records API route)
and the analytics runtime (`src/lib/analytics/runtime.ts`).

Modelling conventions (shallow embedding of the TypeScript source):
* JS numbers are modelled by `JsNum`: an exact rational, `Infinity`,
  `-Infinity`, or `NaN`.  Arithmetic on finite values is exact rational
  arithmetic except that any finite result whose magnitude reaches the IEEE
  round-to-nearest overflow boundary `2^1024 - 2^970` saturates to the
  signed infinity, exactly as double addition/subtraction and
  `Number(string)` conversion overflow in JS (`1e308 + 1e308` and
  `Number("1e309")` are `Infinity`).  Rounding below that boundary, `-0`,
  and subnormal underflow are idealised away; the `NaN`/`Infinity`
  propagation rules follow IEEE as JS does.
* JS `Date` values are modelled as their millisecond timestamps (`Int`),
  interpreted in a single fixed-offset (DST-free) reference frame, so local
  calendar decomposition coincides with the civil calendar over epoch days.
* JS objects used as attribute bags are modelled as association lists
  `List (String × Value)`; JS object keys are unique, and lookup takes the
  first binding.
-/

namespace TemplateBuilder

/-- A JavaScript number: finite (exact rational), positive or negative
infinity, or NaN. -/
inductive JsNum where
  | fin (q : ℚ)
  | inf
  | negInf
  | nan
deriving DecidableEq

/-- `Number.isNaN`. -/
def JsNum.isNaN : JsNum → Bool
  | .nan => true
  | _ => false

/-- `Number.isFinite`. -/
def JsNum.isFinite : JsNum → Bool
  | .fin _ => true
  | _ => false

/-- The smallest magnitude at which IEEE round-to-nearest overflows a double
to `Infinity`: the midpoint `2^1024 - 2^970` between the largest finite
double `2^1024 - 2^971` and `2^1024` (the tie rounds to the even candidate
`2^1024`, i.e. overflows).  An exact double operation whose real result has
magnitude at or above this bound yields the signed infinity; below it the
result is finite.  Written as an explicit integer literal (`=
2 ^ 1024 - 2 ^ 970`, see `doubleOverflowThreshold_eq`). -/
def doubleOverflowThreshold : ℚ :=
  179769313486231580793728971405303415079934132710037826936173778980444968292764750946649017977587207096330286416692887910946555547851940402630657488671505820681908902000708383676273854845817711531764475730270069855571366959622842914819860834936475292719074168444365510704342711559699508093042880177904174497792

/-- `doubleOverflowThreshold` is `2^1024 - 2^970`. -/
theorem doubleOverflowThreshold_eq :
    doubleOverflowThreshold = 2 ^ 1024 - 2 ^ 970 := by
  norm_num [doubleOverflowThreshold]

/-- Clamp the exact real result of a double operation (or of `Number(string)`
conversion) into the double range: magnitudes at or above the
round-to-nearest overflow boundary become the signed infinity; everything
below stays the exact value (rounding below the boundary is idealised
away). -/
def jsOfRat (q : ℚ) : JsNum :=
  if doubleOverflowThreshold ≤ q then .inf
  else if q ≤ -doubleOverflowThreshold then .negInf
  else .fin q

/-- A value strictly inside the double range is kept finite unchanged. -/
theorem jsOfRat_fin (q : ℚ) (h1 : q < doubleOverflowThreshold)
    (h2 : -doubleOverflowThreshold < q) : jsOfRat q = .fin q := by
  unfold jsOfRat
  rw [if_neg (not_le.mpr h1), if_neg (not_le.mpr h2)]

/-- JS `+` on numbers: IEEE `NaN`/`Infinity` propagation, and finite sums
saturate to the signed infinity past the double overflow boundary
(`1e308 + 1e308` is `Infinity` in JS); in-range sums are exact. -/
def jsAdd : JsNum → JsNum → JsNum
  | .fin a, .fin b => jsOfRat (a + b)
  | .fin _, .inf => .inf
  | .fin _, .negInf => .negInf
  | .inf, .fin _ => .inf
  | .inf, .inf => .inf
  | .inf, .negInf => .nan
  | .negInf, .fin _ => .negInf
  | .negInf, .inf => .nan
  | .negInf, .negInf => .negInf
  | _, _ => .nan

/-- JS division of a number by a (record-count) natural number, as used for
`avg`.  Division by zero follows JS (`x / 0` is a signed infinity or NaN). -/
def jsDivNat (x : JsNum) (n : ℕ) : JsNum :=
  match x with
  | .fin q =>
      if n = 0 then
        if 0 < q then .inf else if q < 0 then .negInf else .nan
      else .fin (q / n)
  | .inf => .inf
  | .negInf => .negInf
  | .nan => .nan

/-- JS `<` on numbers (false whenever either side is NaN). -/
def jsLt : JsNum → JsNum → Bool
  | .fin a, .fin b => a < b
  | .fin _, .inf => true
  | .negInf, .fin _ => true
  | .negInf, .inf => true
  | _, _ => false

/-- JS `<=` on numbers (false whenever either side is NaN). -/
def jsLeB : JsNum → JsNum → Bool
  | .fin a, .fin b => a ≤ b
  | .fin _, .inf => true
  | .negInf, .fin _ => true
  | .negInf, .inf => true
  | .negInf, .negInf => true
  | .inf, .inf => true
  | _, _ => false

/-- `Math.min` of two numbers (NaN-absorbing). -/
def jsMin : JsNum → JsNum → JsNum
  | .nan, _ => .nan
  | _, .nan => .nan
  | a, b => if jsLt b a then b else a

/-- `Math.max` of two numbers (NaN-absorbing). -/
def jsMax : JsNum → JsNum → JsNum
  | .nan, _ => .nan
  | _, .nan => .nan
  | a, b => if jsLt a b then b else a

/-- JS binary `-` on numbers, used only to discuss the sort comparator;
finite differences saturate past the double overflow boundary like `+`. -/
def jsSub : JsNum → JsNum → JsNum
  | .fin a, .fin b => jsOfRat (a - b)
  | .fin _, .inf => .negInf
  | .fin _, .negInf => .inf
  | .inf, .fin _ => .inf
  | .inf, .negInf => .inf
  | .negInf, .fin _ => .negInf
  | .negInf, .inf => .negInf
  | _, _ => .nan

/-- Whether a JS number is strictly positive (comparator "greater" result). -/
def JsNum.isPos : JsNum → Bool
  | .fin q => 0 < q
  | .inf => true
  | _ => false

/-- JS `String.prototype.trim`: strip leading and trailing whitespace
(ASCII whitespace and line terminators; the exotic Unicode space code points
JS also strips play no role in this system's data). -/
def jsTrim (s : String) : String :=
  ⟨((s.data.dropWhile Char.isWhitespace).reverse.dropWhile Char.isWhitespace).reverse⟩

/-- Digit list to natural number (decimal). -/
def digitsToNat (ds : List Char) : ℕ :=
  ds.foldl (fun acc c => acc * 10 + (c.toNat - 48)) 0

/-- Natural number from the decimal digits of a string slice; helper for the
date and number parsers. -/
def natOfDigits (s : List Char) : ℕ := digitsToNat s

/-- Optional exponent tail of a JS decimal literal: empty input means
exponent 0; otherwise `e`/`E`, an optional sign, and at least one digit,
consuming the whole rest of the string. -/
def parseExpPart (cs : List Char) : Option Int :=
  match cs with
  | [] => some 0
  | e :: r =>
      if e = 'e' ∨ e = 'E' then
        match r with
        | '+' :: ds => if ds ≠ [] ∧ ds.all Char.isDigit then some (natOfDigits ds) else none
        | '-' :: ds => if ds ≠ [] ∧ ds.all Char.isDigit then some (-(natOfDigits ds : Int)) else none
        | ds => if ds ≠ [] ∧ ds.all Char.isDigit then some (natOfDigits ds) else none
      else none

/-- Scale a rational by a power of ten (the exponent of a decimal literal;
the zero exponent is the identity). -/
def applyExp (q : ℚ) (e : Int) : ℚ :=
  if e = 0 then q
  else if 0 ≤ e then q * (10 : ℚ) ^ e.toNat else q / (10 : ℚ) ^ (-e).toNat

/-- Unsigned JS decimal literal: `digits`, `digits.digits`, `.digits` or
`digits.`, with an optional exponent; at least one digit overall. -/
def parseUnsignedDec (cs : List Char) : Option ℚ :=
  let ip := cs.takeWhile Char.isDigit
  let rest := cs.dropWhile Char.isDigit
  match rest with
  | '.' :: r2 =>
      let fp := r2.takeWhile Char.isDigit
      let r3 := r2.dropWhile Char.isDigit
      if ip = [] ∧ fp = [] then none
      else
        (parseExpPart r3).map fun e =>
          applyExp ((natOfDigits ip : ℚ) + (natOfDigits fp : ℚ) / (10 : ℚ) ^ fp.length) e
  | r3 =>
      if ip = [] then none
      else (parseExpPart r3).map fun e => applyExp (natOfDigits ip : ℚ) e

/-- The JS `Number(string)` conversion, on trimmed input.  Faithful for the
empty string, `Infinity` literals and decimal literals (with sign, fraction
and exponent); a literal whose value reaches the double overflow boundary
converts to the signed infinity, as in JS where `Number("1e309")` is
`Infinity`.  The hexadecimal / octal / binary literal forms (`0x…`, `0o…`,
`0b…`) are not modelled — no claim depends on them. -/
def jsStringToNumber (s : String) : JsNum :=
  let t := jsTrim s
  if t = "" then .fin 0
  else if t = "Infinity" ∨ t = "+Infinity" then .inf
  else if t = "-Infinity" then .negInf
  else
    match t.toList with
    | '+' :: cs => match parseUnsignedDec cs with
      | some q => jsOfRat q
      | none => .nan
    | '-' :: cs => match parseUnsignedDec cs with
      | some q => jsOfRat (-q)
      | none => .nan
    | cs => match parseUnsignedDec cs with
      | some q => jsOfRat q
      | none => .nan

/-- Decimal digits of the fractional part `num/den` (with `num < den`),
emitted until the remainder is zero or the fuel runs out.  JS doubles always
have terminating decimal expansions, so for values arising from the source
the fuel is never exhausted. -/
def fracDigitsString (num den : ℕ) : ℕ → String
  | 0 => ""
  | fuel + 1 =>
      if num = 0 then ""
      else
        let num10 := num * 10
        toString (num10 / den) ++ fracDigitsString (num10 % den) den fuel

/-- Decimal string of a non-negative rational. -/
def ratToDecString (q : ℚ) : String :=
  let ipart : ℕ := q.num.toNat / q.den
  let fnum : ℕ := q.num.toNat % q.den
  if fnum = 0 then toString ipart
  else toString ipart ++ "." ++ fracDigitsString fnum q.den 1500

/-- The JS `String(number)` conversion.  Faithful on NaN, infinities,
integers and finitely-representable decimals; the exponent notation JS uses
for magnitudes ≥ 1e21 or < 1e-6 is not modelled — no claim depends on it. -/
def jsNumToString : JsNum → String
  | .nan => "NaN"
  | .inf => "Infinity"
  | .negInf => "-Infinity"
  | .fin q => if q < 0 then "-" ++ ratToDecString (-q) else ratToDecString q

/-! ### Calendar model

JS `Date` values are millisecond timestamps; the helpers below convert
between timestamps and civil `(year, month, day)` triples with the standard
proleptic-Gregorian epoch-day algorithms, matching ECMAScript's `MakeDay` in
a fixed-offset frame. -/

/-- Milliseconds per civil day. -/
def dayMs : Int := 86400000

/-- Days from 1970-01-01 to civil date `y-m-1` plus `d - 1` days; `m` must be
in `1..12`, while `d` may be any integer (JS `Date` normalises day overflow
by plain day arithmetic). -/
def daysFromCivil (y : Int) (m : Int) (d : Int) : Int :=
  let y' := if m ≤ 2 then y - 1 else y
  let era := Int.fdiv y' 400
  let yoe := y' - era * 400
  let mp := if m > 2 then m - 3 else m + 9
  let doy := (153 * mp + 2) / 5 + d - 1
  let doe := yoe * 365 + yoe / 4 - yoe / 100 + doy
  era * 146097 + doe - 719468

/-- Civil `(year, month ∈ 1..12, day ∈ 1..31)` of an epoch day number. -/
def civilFromDays (z0 : Int) : Int × Int × Int :=
  let z := z0 + 719468
  let era := Int.fdiv z 146097
  let doe := z - era * 146097
  let yoe := (doe - doe / 1460 + doe / 36524 - doe / 146096) / 365
  let y := yoe + era * 400
  let doy := doe - (365 * yoe + yoe / 4 - yoe / 100)
  let mp := (5 * doy + 2) / 153
  let d := doy - (153 * mp + 2) / 5 + 1
  let m := if mp < 10 then mp + 3 else mp - 9
  (if m ≤ 2 then y + 1 else y, m, d)

/-- Civil date of a millisecond timestamp (time-of-day truncated). -/
def civilFromMs (t : Int) : Int × Int × Int :=
  civilFromDays (Int.fdiv t dayMs)

/-- The JS `new Date(year, monthIndex, day)` constructor as a millisecond
timestamp: years `0..99` are shifted to `1900..1999` (the legacy two-digit
year rule), and month/day overflow is normalised by calendar arithmetic. -/
def jsNewDateYMD (year monthIndex day : Int) : Int :=
  let y := if 0 ≤ year ∧ year ≤ 99 then year + 1900 else year
  let months := y * 12 + monthIndex
  let yy := Int.fdiv months 12
  let mm := Int.fmod months 12 + 1
  (daysFromCivil yy mm 1 + (day - 1)) * dayMs

/-- `startOfDay` from the runtime: rebuild the date from its local
year/month/day components (inheriting the two-digit-year constructor rule). -/
def startOfDay (t : Int) : Int :=
  match civilFromMs t with
  | (y, m, d) => jsNewDateYMD y (m - 1) d

/-- `startOfMonth` from the runtime. -/
def startOfMonth (t : Int) : Int :=
  match civilFromMs t with
  | (y, m, _) => jsNewDateYMD y (m - 1) 1

/-- `startOfYear` from the runtime. -/
def startOfYear (t : Int) : Int :=
  match civilFromMs t with
  | (y, _, _) => jsNewDateYMD y 0 1

/-- `addDays` from the runtime (`setDate(getDate() + days)`); in the
fixed-offset frame this is exactly `days` whole days of milliseconds. -/
def addDays (t : Int) (days : Int) : Int :=
  t + days * dayMs

/-- `addMonths` from the runtime (`new Date(y, m + months, 1)`). -/
def addMonths (t : Int) (months : Int) : Int :=
  match civilFromMs t with
  | (y, m, _) => jsNewDateYMD y (m - 1 + months) 1

/-- `addYears` from the runtime (`new Date(y + years, 0, 1)`). -/
def addYears (t : Int) (years : Int) : Int :=
  match civilFromMs t with
  | (y, _, _) => jsNewDateYMD (y + years) 0 1

/-- Whether a string consists of exactly `4 digits - 2 digits - 2 digits`,
the regex `^(\d{4})-(\d{2})-(\d{2})$` of `parseDate` (no trimming here). -/
def dateFormatMatches (s : String) : Bool :=
  match s.toList with
  | [y1, y2, y3, y4, h1, m1, m2, h2, d1, d2] =>
      y1.isDigit && y2.isDigit && y3.isDigit && y4.isDigit &&
      h1 = '-' && m1.isDigit && m2.isDigit && h2 = '-' && d1.isDigit && d2.isDigit
  | _ => false

/-- Year, month and day digit groups of a format-matching string (garbage on
other strings; callers check `dateFormatMatches` first). -/
def parseYMD (s : String) : ℕ × ℕ × ℕ :=
  match s.toList with
  | [y1, y2, y3, y4, _, m1, m2, _, d1, d2] =>
      (natOfDigits [y1, y2, y3, y4], natOfDigits [m1, m2], natOfDigits [d1, d2])
  | _ => (0, 0, 0)

/-- `parseDate` from the runtime: trim; a `YYYY-MM-DD` match is built with
`new Date(year, month - 1, day)` (local, overflow-normalising, two-digit-year
shifted) and rejected only when the timestamp leaves the representable Date
range.  The fallback `new Date(s)` for other strings is modelled as
unparseable: no claim depends on non-`YYYY-MM-DD` date strings. -/
def parseDate (s : String) : Option Int :=
  let t := jsTrim s
  if dateFormatMatches t then
    match parseYMD t with
    | (y, m, d) =>
        let ms := jsNewDateYMD (y : Int) ((m : Int) - 1) (d : Int)
        if ms.natAbs ≤ 8640000000000000 then some ms else none
  else none

/-! ### Data model

Scalar values of an attribute bag (`Record<string, unknown>` restricted to
the JSON scalars the system stores), the `Field` variants of
`template_spec.ts`, and the template spec shape the validator consumes. -/

/-- A scalar attribute value: string, number, boolean or JSON `null`.
An absent key is `none` at the `Option Value` level (JS `undefined`). -/
inductive Value where
  | str (s : String)
  | num (n : JsNum)
  | bool (b : Bool)
  | null
deriving DecidableEq

/-- JS `String(value)` on a scalar. -/
def jsValueToString : Value → String
  | .str s => s
  | .num n => jsNumToString n
  | .bool b => if b then "true" else "false"
  | .null => "null"

/-- JS truthiness (`Boolean(value)`) of a scalar. -/
def jsTruthy : Value → Bool
  | .str s => s ≠ ""
  | .num n => n ≠ .fin 0 && !n.isNaN
  | .bool b => b
  | .null => false

/-- One schema field, the discriminated union of `template_spec.ts`.
`label` is optional (`none` models an absent label; the zod `string` variant
defaults it to `""`, which is `some ""` here); an absent `required` is
falsy in every use, so it is modelled as `false`. -/
inductive Field where
  | str (id : String) (label : Option String) (required : Bool)
  | num (id : String) (label : Option String) (mn mx : Option JsNum) (required : Bool)
  | bool (id : String) (label : Option String) (required : Bool)
  | date (id : String) (label : Option String) (required : Bool)
  | select (id : String) (label : Option String) (options : List String) (required : Bool)
deriving DecidableEq

/-- The field's attribute-bag key. -/
def Field.id : Field → String
  | .str i _ _ => i
  | .num i _ _ _ _ => i
  | .bool i _ _ => i
  | .date i _ _ => i
  | .select i _ _ _ => i

/-- The field's `required` flag. -/
def Field.required : Field → Bool
  | .str _ _ r => r
  | .num _ _ _ _ r => r
  | .bool _ _ r => r
  | .date _ _ r => r
  | .select _ _ _ r => r

/-- `field.label ?? field.id`, the prefix of every validation message. -/
def Field.labelOrId : Field → String
  | .str i l _ => l.getD i
  | .num i l _ _ _ => l.getD i
  | .bool i l _ => l.getD i
  | .date i l _ => l.getD i
  | .select i l _ _ => l.getD i

/-- The `schema` object of a template spec. -/
structure TemplateSchema where
  fields : List Field
  indexes : Option (List (List String))
deriving DecidableEq

/-- A template spec (views are irrelevant to the claims and omitted from the
model; the validator reads only `spec.schema.fields`). -/
structure TemplateSpec where
  name : String
  schema : TemplateSchema
deriving DecidableEq

/-- An attribute bag: association list from field id to scalar value.  JS
object keys are unique; lookup takes the first binding. -/
abbrev AttrBag := List (String × Value)

/-- `bag[key]` (JS property read; `none` is `undefined`). -/
def jsLookup (bag : AttrBag) (k : String) : Option Value :=
  (bag.find? fun e => e.1 == k).map (·.2)

/-! ### Record validator (`validateAndNormalizeRecordData`) -/

/-- One validation failure, the `{ field, message }` detail shape. -/
structure ValidationDetail where
  field : String
  message : String
deriving DecidableEq

/-- The validator's result: a normalized bag or the full detail list. -/
inductive ValidationResult where
  | ok (data : AttrBag)
  | err (details : List ValidationDetail)
deriving DecidableEq

/-- `isValidISODateYYYYMMDD` from the records route: the `YYYY-MM-DD` regex,
then `new Date(value + "T00:00:00Z")` — which V8 rejects (NaN) unless the
components form a real calendar date — then the UTC round-trip check,
modelled by converting to an epoch day and back. -/
def isValidISODateYYYYMMDD (value : String) : Bool :=
  if !dateFormatMatches value then false
  else
    match parseYMD value with
    | (y, m, d) =>
        if !(1 ≤ m && m ≤ 12 && 1 ≤ d && d ≤ 31) then false
        else
          match civilFromDays (daysFromCivil (y : Int) (m : Int) (d : Int)) with
          | (y2, m2, d2) => y2 == (y : Int) && m2 == (m : Int) && d2 == (d : Int)

/-- `value === undefined || value === null || value === ""`. -/
def isMissingValue : Option Value → Bool
  | none => true
  | some .null => true
  | some (.str s) => s == ""
  | _ => false

/-- The per-field body of the validator loop: the detail it pushes (if any)
and the normalized value it stores (if any), given `rawData[field.id]`. -/
def checkFieldValue (field : Field) (value : Option Value) :
    Option ValidationDetail × Option Value :=
  let lbl := field.labelOrId
  if field.required && isMissingValue value then
    (some ⟨field.id, s!"{lbl} is required"⟩, none)
  else if isMissingValue value then (none, none)
  else
    match field with
    | .str i _ _ =>
        match value with
        | some (.str s) => (none, some (.str s))
        | _ => (some ⟨i, s!"{lbl} must be a string"⟩, none)
    | .num i _ mn mx _ =>
        let n : JsNum :=
          match value with
          | some (.num x) => x
          | some (.str s) => jsStringToNumber s
          | _ => .nan
        if n.isNaN then (some ⟨i, s!"{lbl} must be a number"⟩, none)
        else if (match mn with | some m => jsLt n m | none => false) then
          (some ⟨i, s!"{lbl} must be >= {jsNumToString (mn.getD .nan)}"⟩, none)
        else if (match mx with | some m => jsLt m n | none => false) then
          (some ⟨i, s!"{lbl} must be <= {jsNumToString (mx.getD .nan)}"⟩, none)
        else (none, some (.num n))
    | .bool i _ _ =>
        match value with
        | some (.bool b) => (none, some (.bool b))
        | some (.str s) =>
            if s = "true" then (none, some (.bool true))
            else if s = "false" then (none, some (.bool false))
            else (some ⟨i, s!"{lbl} must be a boolean"⟩, none)
        | _ => (some ⟨i, s!"{lbl} must be a boolean"⟩, none)
    | .date i _ _ =>
        match value with
        | some (.str s) =>
            if isValidISODateYYYYMMDD s then (none, some (.str s))
            else (some ⟨i, s!"{lbl} must be a date in YYYY-MM-DD format"⟩, none)
        | _ => (some ⟨i, s!"{lbl} must be a date in YYYY-MM-DD format"⟩, none)
    | .select i _ options _ =>
        match value with
        | some (.str s) =>
            if options.contains s then (none, some (.str s))
            else
              let optsText := String.intercalate ", " options
              (some ⟨i, s!"{lbl} must be one of: {optsText}"⟩, none)
        | _ => (some ⟨i, s!"{lbl} must be a string"⟩, none)

/-- `validateAndNormalizeRecordData` from the records route: reject unknown
keys (one detail per key, collected, no early abort), then run the per-field
checks in schema order, accumulating details and the normalized bag; succeed
only when no detail was produced.  (The `isPlainObject` structural guard is
outside the model: the input is already an attribute bag.) -/
def validateAndNormalizeRecordData (spec : TemplateSpec) (rawData : AttrBag) :
    ValidationResult :=
  let fields := spec.schema.fields
  let allowedIds := fields.map Field.id
  let unknownDetails : List ValidationDetail :=
    (rawData.map Prod.fst).filterMap fun key =>
      if allowedIds.contains key then none
      else some ⟨key, s!"Unknown field \"{key}\" for this template"⟩
  let step := fun (acc : List ValidationDetail × AttrBag) (field : Field) =>
    match checkFieldValue field (jsLookup rawData field.id) with
    | (some d, _) => (acc.1 ++ [d], acc.2)
    | (none, some v) => (acc.1, acc.2 ++ [(field.id, v)])
    | (none, none) => acc
  let folded := fields.foldl step ([], [])
  let details := unknownDetails ++ folded.1
  if details.isEmpty then .ok folded.2 else .err details

/-! ### Analytics runtime (`src/lib/analytics/runtime.ts`) -/

/-- A `Primitive` filter operand: `string | number | boolean`. -/
inductive Primitive where
  | str (s : String)
  | num (n : JsNum)
  | bool (b : Bool)
deriving DecidableEq

/-- JS `String(x)` on a primitive. -/
def primToString : Primitive → String
  | .str s => s
  | .num n => jsNumToString n
  | .bool b => if b then "true" else "false"

/-- JS truthiness of a primitive. -/
def primTruthy : Primitive → Bool
  | .str s => s ≠ ""
  | .num n => n ≠ .fin 0 && !n.isNaN
  | .bool b => b

/-- The `Filter` discriminated union (`in` is `mem`: `in` is reserved). -/
inductive Filter where
  | eq (fieldId : String) (value : Primitive)
  | neq (fieldId : String) (value : Primitive)
  | mem (fieldId : String) (value : List Primitive)
  | gte (fieldId : String) (value : JsNum)
  | lte (fieldId : String) (value : JsNum)
  | containsOp (fieldId : String) (value : String)
deriving DecidableEq

/-- The filter's target field id. -/
def Filter.fieldId : Filter → String
  | .eq f _ => f
  | .neq f _ => f
  | .mem f _ => f
  | .gte f _ => f
  | .lte f _ => f
  | .containsOp f _ => f

/-- Metric aggregation operations. -/
inductive MetricOp where
  | sum
  | count
  | avg
  | min
  | max
deriving DecidableEq

/-- Display formats (no computational effect). -/
inductive MetricFormat where
  | currency
  | number
  | percent
deriving DecidableEq

/-- A `Metric` descriptor. -/
structure Metric where
  id : String
  label : String
  op : MetricOp
  fieldId : Option String
  format : Option MetricFormat
  filters : Option (List Filter)
deriving DecidableEq

/-- Sort direction of a group-by. -/
inductive SortDir where
  | asc
  | desc
deriving DecidableEq

/-- The `sort` member of a `GroupBy`. -/
structure GroupSort where
  metricId : String
  dir : SortDir
deriving DecidableEq

/-- A `GroupBy` descriptor. -/
structure GroupBy where
  fieldId : String
  label : Option String
  limit : Option Int
  sort : Option GroupSort
deriving DecidableEq

/-- A record as the runtime sees it: attribute bag plus timestamp. -/
structure RecordLike where
  data : AttrBag
  createdAt : Option String
deriving DecidableEq

/-- Time range presets. -/
inductive TimePreset where
  | this_month
  | last_month
  | this_year
  | all_time
deriving DecidableEq

/-- A `TimeRange`: preset or explicit `{from, to}` date strings. -/
inductive TimeRange where
  | preset (p : TimePreset)
  | explicit (fromS toS : String)
deriving DecidableEq

/-- `toNumber` from the runtime: a non-NaN number passes through; a string
with non-empty trim goes through `Number(...)` and is kept unless NaN;
everything else (booleans, null/undefined, whitespace-only strings) is
`null`. -/
def toNumber : Option Value → Option JsNum
  | some (.num n) => if n.isNaN then none else some n
  | some (.str s) =>
      if (jsTrim s).length > 0 then
        let n := jsStringToNumber s
        if n.isNaN then none else some n
      else none
  | _ => none

/-- `looselyEqual` from the runtime: `null`/`undefined` never match; if
either side is a boolean both are coerced by truthiness; otherwise the
string representations are compared. -/
def looselyEqual (a : Option Value) (b : Primitive) : Bool :=
  match a with
  | none => false
  | some .null => false
  | some av =>
      match av, b with
      | .bool _, _ => jsTruthy av == primTruthy b
      | _, .bool _ => jsTruthy av == primTruthy b
      | _, _ => jsValueToString av == primToString b

/-- `normalizeComparable` from the runtime: `null`/`undefined` to `none`,
booleans to `"true"`/`"false"`, strings and numbers kept. -/
def normalizeComparable : Option Value → Option Value
  | none => none
  | some .null => none
  | some (.str s) => some (.str s)
  | some (.num n) => some (.num n)
  | some (.bool b) => some (.str (if b then "true" else "false"))

/-- Case-insensitive substring test `s.toLowerCase().includes(sub.toLowerCase())`
(ASCII lowercasing; the record data of this system is ASCII-tagged). -/
def containsIgnoreCase (s sub : String) : Bool :=
  let hay := s.data.map Char.toLower
  let needle := sub.data.map Char.toLower
  (List.range (hay.length + 1)).any fun i => (hay.drop i).take needle.length == needle

/-- `matchesFilter` from the runtime. -/
def matchesFilter (record : RecordLike) (filter : Filter) : Bool :=
  let raw := jsLookup record.data filter.fieldId
  match filter with
  | .eq _ value => looselyEqual raw value
  | .neq _ value => !looselyEqual raw value
  | .mem _ value =>
      match normalizeComparable raw with
      | none => false
      | some v => value.any fun x => primToString x == jsValueToString v
  | .gte _ value =>
      match toNumber raw with
      | some n => jsLeB value n
      | none => false
  | .lte _ value =>
      match toNumber raw with
      | some n => jsLeB n value
      | none => false
  | .containsOp _ value =>
      let s := match raw with
        | none => ""
        | some .null => ""
        | some v => jsValueToString v
      containsIgnoreCase s value

/-- `applyFilters` from the runtime (absent or empty list is the identity). -/
def applyFilters (records : List RecordLike) (filters : Option (List Filter)) :
    List RecordLike :=
  match filters with
  | none => records
  | some [] => records
  | some fs => records.filter fun r => fs.all (matchesFilter r)

/-- `resolveTimeRange` from the runtime: explicit ranges become
`[startOfDay from, startOfDay to + 1 day)`, or `[null, null]` when either
bound fails to parse; `all_time` is `[new Date(0), new Date(8640000000000000))`;
the month/year presets are derived from `now`. -/
def resolveTimeRange (range : TimeRange) (now : Int) : Option Int × Option Int :=
  match range with
  | .explicit fromS toS =>
      match parseDate fromS, parseDate toS with
      | some s, some e => (some (startOfDay s), some (addDays (startOfDay e) 1))
      | _, _ => (none, none)
  | .preset .all_time => (some 0, some 8640000000000000)
  | .preset .this_month => (some (startOfMonth now), some (startOfMonth (addMonths now 1)))
  | .preset .last_month => (some (startOfMonth (addMonths now (-1))), some (startOfMonth now))
  | .preset .this_year => (some (startOfYear now), some (startOfYear (addYears now 1)))

/-- `getRecordDate` from the runtime: `null`/`undefined` yield `null`;
otherwise `parseDate(String(raw))` truncated to the start of its day.
(The `raw instanceof Date` branch is unreachable for JSON-sourced values
and is not modelled.) -/
def getRecordDate (record : RecordLike) (timeFieldId : String) : Option Int :=
  match jsLookup record.data timeFieldId with
  | none => none
  | some .null => none
  | some raw =>
      match parseDate (jsValueToString raw) with
      | none => none
      | some d => some (startOfDay d)

/-- `applyTimeRange` from the runtime: no range or a blank time field id is
the identity; an unresolved range (`[null, null]`) is the identity; otherwise
keep exactly the records whose date satisfies `start ≤ d < endExclusive`. -/
def applyTimeRange (records : List RecordLike) (timeFieldId : Option String)
    (range : Option TimeRange) (now : Int) : List RecordLike :=
  match range with
  | none => records
  | some range =>
      match timeFieldId with
      | none => records
      | some tf =>
          if (jsTrim tf).length = 0 then records
          else
            match resolveTimeRange range now with
            | (some start, some endEx) =>
                records.filter fun r =>
                  match getRecordDate r tf with
                  | none => false
                  | some d => start ≤ d && d < endEx
            | _ => records

/-- `computeMetric` from the runtime: apply the metric-local filters, return
the record count for `count`, `0` for a falsy `fieldId` (absent or empty),
otherwise aggregate the numeric field values (`toNumber`-parseable), with `0`
on an empty value list.  `Math.min(...)`/`Math.max(...)` spread over the list
fold from their identities `Infinity`/`-Infinity`. -/
def computeMetric (records : List RecordLike) (metric : Metric) : JsNum :=
  let filtered := match metric.filters with
    | some (f :: fs) => applyFilters records (some (f :: fs))
    | _ => records
  match metric.op with
  | .count => .fin (filtered.length : ℚ)
  | op =>
      match metric.fieldId with
      | none => .fin 0
      | some fieldId =>
          if fieldId = "" then .fin 0
          else
            let values := filtered.filterMap fun r => toNumber (jsLookup r.data fieldId)
            if values.isEmpty then .fin 0
            else
              match op with
              | .sum => values.foldl jsAdd (.fin 0)
              | .avg => jsDivNat (values.foldl jsAdd (.fin 0)) values.length
              | .min => values.foldl jsMin .inf
              | .max => values.foldl jsMax .negInf
              | .count => .fin 0

/-- `normalizeGroupKey` from the runtime: `null`/`undefined`/`""` become the
`"(empty)"` sentinel, everything else its comparable string form. -/
def normalizeGroupKey (raw : Option Value) : String :=
  match raw with
  | none => "(empty)"
  | some .null => "(empty)"
  | some (.str "") => "(empty)"
  | some v =>
      match normalizeComparable (some v) with
      | none => "(empty)"
      | some w => jsValueToString w

/-- Append a record to its partition, creating the partition at the end on
first sight (the insertion-order behaviour of a JS `Map`). -/
def insertGrouped (map : List (String × List RecordLike)) (key : String)
    (r : RecordLike) : List (String × List RecordLike) :=
  if map.any (·.1 == key) then
    map.map fun e => if e.1 == key then (e.1, e.2 ++ [r]) else e
  else map ++ [(key, [r])]

/-- `groupByField` from the runtime: partition in input order; partitions are
listed in first-seen key order. -/
def groupByField (records : List RecordLike) (fieldId : String) :
    List (String × List RecordLike) :=
  records.foldl (fun map r => insertGrouped map (normalizeGroupKey (jsLookup r.data fieldId)) r) []

/-- One `{key, value, count}` row of a grouped metric. -/
structure GroupRow where
  key : String
  value : JsNum
  count : ℕ
deriving DecidableEq

/-- Total preorder on JS numbers realising the sort comparator
`(a, b) => a.value - b.value`: it agrees with the comparator's sign wherever
the subtraction is not NaN (`jsNumLe_eq_comparator` below).  When the
comparator returns NaN (only possible between two infinite values or with a
NaN value) ECMA-262 leaves the sort order implementation-defined; the model
resolves those cases by ranking `-Infinity < finite < Infinity < NaN`, with
equal ranks tying (ties keep their input order under a stable sort, matching
engines that treat a NaN comparator result as 0). -/
def jsNumLe (a b : JsNum) : Bool :=
  match a, b with
  | .fin x, .fin y => x ≤ y
  | .negInf, _ => true
  | _, .nan => true
  | .fin _, .inf => true
  | .inf, .inf => true
  | _, _ => false

/-- The row ordering used by `rows.sort(...)` for a given direction:
ascending compares `a.value - b.value`, descending `b.value - a.value`. -/
def rowSortLe (dir : SortDir) (a b : GroupRow) : Bool :=
  match dir with
  | .asc => jsNumLe a.value b.value
  | .desc => jsNumLe b.value a.value

/-- The `groupBy.sort?.dir ?? "desc"` default. -/
def groupSortDir (groupBy : GroupBy) : SortDir :=
  match groupBy.sort with
  | some s => s.dir
  | none => .desc

/-- The `rows.slice(0, limit)` step, guarded by
`typeof limit === "number" && limit > 0`. -/
def applyGroupLimit (limit : Option Int) (rows : List GroupRow) : List GroupRow :=
  match limit with
  | some n => if 0 < n then rows.take n.toNat else rows
  | none => rows

/-- The unsorted row list of `computeGroupedMetric`: one row per partition,
in first-seen key order. -/
def groupRows (records : List RecordLike) (groupBy : GroupBy) (metric : Metric) :
    List GroupRow :=
  (groupByField records groupBy.fieldId).map fun e =>
    ⟨e.1, computeMetric e.2 metric, e.2.length⟩

/-- `computeGroupedMetric` from the runtime: build one row per partition,
stable-sort by metric value in the requested direction (JS `Array#sort` is
stable since ES2019; modelled by `List.mergeSort` over `rowSortLe`), then
truncate to `limit`. -/
def computeGroupedMetric (records : List RecordLike) (groupBy : GroupBy)
    (metric : Metric) : List GroupRow :=
  applyGroupLimit groupBy.limit
    ((groupRows records groupBy metric).mergeSort (rowSortLe (groupSortDir groupBy)))

/-! ### Claim-side definitions

Restatements of what the specification asserts, phrased independently of the
implementation's control flow, to be compared with the embedded source. -/

/-- The detail list a validator result carries (`[]` on success). -/
def resultDetails : ValidationResult → List ValidationDetail
  | .ok _ => []
  | .err ds => ds

/-- Whether a validator result is `{ ok: true }`. -/
def ValidationResult.isOk : ValidationResult → Bool
  | .ok _ => true
  | .err _ => false

/-- The raw keys not declared by the schema (one unknown-key error each). -/
def unknownKeys (spec : TemplateSpec) (rawData : AttrBag) : List String :=
  (rawData.map Prod.fst).filter fun k => !((spec.schema.fields.map Field.id).contains k)

/-- The specification's per-field rule on one (possibly absent) value: a
required field may not be missing; a present value must satisfy its
variant's type/format/range rule (string type, numeric parse plus
`min`/`max`, boolean literal, calendar date, declared select option). -/
def violatesValue (field : Field) (value : Option Value) : Bool :=
  if isMissingValue value then field.required
  else
    match field, value with
    | .str _ _ _, some (.str _) => false
    | .str _ _ _, _ => true
    | .num _ _ mn mx _, _ =>
        let n : JsNum := match value with
          | some (.num x) => x
          | some (.str s) => jsStringToNumber s
          | _ => .nan
        n.isNaN || (match mn with | some m => jsLt n m | none => false)
          || (match mx with | some m => jsLt m n | none => false)
    | .bool _ _ _, some (.bool _) => false
    | .bool _ _ _, some (.str s) => !(s = "true" || s = "false")
    | .bool _ _ _, _ => true
    | .date _ _ _, some (.str s) => !isValidISODateYYYYMMDD s
    | .date _ _ _, _ => true
    | .select _ _ options _, some (.str s) => !options.contains s
    | .select _ _ _ _, _ => true

/-- The specification's per-field rule applied to a raw bag. -/
def violatesFieldRule (rawData : AttrBag) (field : Field) : Bool :=
  violatesValue field (jsLookup rawData field.id)

/-- The unknown-key details of a validation run. -/
def unknownDetailsOf (spec : TemplateSpec) (rawData : AttrBag) : List ValidationDetail :=
  (rawData.map Prod.fst).filterMap fun key =>
    if (spec.schema.fields.map Field.id).contains key then none
    else some ⟨key, s!"Unknown field \"{key}\" for this template"⟩

/-- The per-field details of a validation run, in schema order. -/
def fieldDetails (fields : List Field) (rawData : AttrBag) : List ValidationDetail :=
  fields.filterMap fun f => (checkFieldValue f (jsLookup rawData f.id)).1

/-- The normalized entry a field contributes (none when skipped or failed). -/
def fieldStore (rawData : AttrBag) (f : Field) : Option (String × Value) :=
  match checkFieldValue f (jsLookup rawData f.id) with
  | (none, some v) => some (f.id, v)
  | _ => none

/-- The normalized bag of a validation run, in schema order. -/
def fieldNormalized (fields : List Field) (rawData : AttrBag) : AttrBag :=
  fields.filterMap (fieldStore rawData)

/-- The metric-filtered record set (`metric.filters` applied when present
and non-empty). -/
def metricFiltered (records : List RecordLike) (metric : Metric) : List RecordLike :=
  match metric.filters with
  | some (f :: fs) => applyFilters records (some (f :: fs))
  | _ => records

/-- The numeric values a non-`count` metric aggregates: the
`toNumber`-parseable field values of the filtered records, in order (empty
when `fieldId` is absent or blank). -/
def metricValues (records : List RecordLike) (metric : Metric) : List JsNum :=
  match metric.fieldId with
  | none => []
  | some f =>
      if f = "" then []
      else (metricFiltered records metric).filterMap fun r => toNumber (jsLookup r.data f)

/-- The specification's aggregation over an already-collected value list:
`0` on the empty list, else fold of `+`/min/max, with `avg` dividing the sum
by the number of collected values. -/
def computeMetricFromValues (op : MetricOp) (values : List JsNum) : JsNum :=
  if values.isEmpty then .fin 0
  else
    match op with
    | .sum => values.foldl jsAdd (.fin 0)
    | .avg => jsDivNat (values.foldl jsAdd (.fin 0)) values.length
    | .min => values.foldl jsMin .inf
    | .max => values.foldl jsMax .negInf
    | .count => .fin 0

/-- The group keys in first-seen order (discovery order in the input). -/
def firstSeenKeys (records : List RecordLike) (fieldId : String) : List String :=
  records.foldl
    (fun ks r =>
      let k := normalizeGroupKey (jsLookup r.data fieldId)
      if ks.contains k then ks else ks ++ [k])
    []

/-- The claim-side row comparison: JS `<=` on the metric values, flipped for
descending order.  On finite values this is exact rational order. -/
def dirLe (dir : SortDir) (a b : GroupRow) : Bool :=
  match dir with
  | .asc => jsLeB a.value b.value
  | .desc => jsLeB b.value a.value

/-! ### Supporting lemmas -/

theorem length_filterMap_eq_countP {α β : Type _} (g : α → Option β) (l : List α) :
    (l.filterMap g).length = l.countP fun a => (g a).isSome := by
  induction l with
  | nil => rfl
  | cons a l ih =>
      rw [List.filterMap_cons, List.countP_cons]
      cases h : g a <;> simp [h, ih]

theorem validate_foldl_char (rawData : AttrBag) (fields : List Field) :
    ∀ acc : List ValidationDetail × AttrBag,
      fields.foldl
        (fun acc field =>
          match checkFieldValue field (jsLookup rawData field.id) with
          | (some d, _) => (acc.1 ++ [d], acc.2)
          | (none, some v) => (acc.1, acc.2 ++ [(field.id, v)])
          | (none, none) => acc)
        acc
      = (acc.1 ++ fieldDetails fields rawData, acc.2 ++ fieldNormalized fields rawData) := by
  induction fields with
  | nil => intro acc; simp [fieldDetails, fieldNormalized]
  | cons f fs ih =>
      intro acc
      rw [List.foldl_cons]
      rcases h : checkFieldValue f (jsLookup rawData f.id) with ⟨od, ov⟩
      have hd : fieldDetails (f :: fs) rawData =
          (od.toList) ++ fieldDetails fs rawData := by
        cases od <;> simp [fieldDetails, h]
      have hn : fieldNormalized (f :: fs) rawData =
          (match (od, ov) with
            | (none, some v) => [(f.id, v)]
            | _ => []) ++ fieldNormalized fs rawData := by
        cases od <;> cases ov <;> simp [fieldNormalized, fieldStore, h]
      cases od with
      | some d =>
          simp only [h]
          rw [ih]
          simp [hd, hn]
      | none =>
          cases ov with
          | some v =>
              simp only [h]
              rw [ih]
              simp [hd, hn]
          | none =>
              simp only [h]
              rw [ih]
              simp [hd, hn]

/-- The validator, characterised: it fails exactly on the concatenation of
the unknown-key details and the per-field details, and succeeds with the
per-field normalized bag. -/
theorem validateAndNormalizeRecordData_eq (spec : TemplateSpec) (rawData : AttrBag) :
    validateAndNormalizeRecordData spec rawData =
      if (unknownDetailsOf spec rawData ++ fieldDetails spec.schema.fields rawData).isEmpty
      then .ok (fieldNormalized spec.schema.fields rawData)
      else .err (unknownDetailsOf spec rawData ++ fieldDetails spec.schema.fields rawData) := by
  simp only [validateAndNormalizeRecordData]
  rw [validate_foldl_char rawData spec.schema.fields ([], [])]
  simp only [List.nil_append]
  rfl

/-- The per-field check pushes a detail exactly when the specification's
per-field rule is violated. -/
theorem checkFieldValue_detail_iff (field : Field) (value : Option Value) :
    ((checkFieldValue field value).1).isSome = violatesValue field value := by
  unfold checkFieldValue violatesValue
  by_cases hm : isMissingValue value = true
  · cases hr : field.required <;> simp [hm, hr]
  · simp only [Bool.not_eq_true] at hm
    simp only [hm, Bool.and_false, if_false]
    rcases field with ⟨i, l, r⟩ | ⟨i, l, mn, mx, r⟩ | ⟨i, l, r⟩ | ⟨i, l, r⟩ | ⟨i, l, os, r⟩ <;>
        rcases value with _ | (s | n | b | _) <;>
      simp only [] <;> (try split_ifs) <;> simp_all

theorem length_unknownDetailsOf (spec : TemplateSpec) (rawData : AttrBag) :
    (unknownDetailsOf spec rawData).length = (unknownKeys spec rawData).length := by
  rw [unknownDetailsOf, unknownKeys, length_filterMap_eq_countP, List.countP_eq_length_filter]
  congr 1
  apply List.filter_congr
  intro k _
  cases h : (spec.schema.fields.map Field.id).contains k <;> simp [h]

theorem length_fieldDetails (fields : List Field) (rawData : AttrBag) :
    (fieldDetails fields rawData).length = fields.countP (violatesFieldRule rawData) := by
  rw [fieldDetails, length_filterMap_eq_countP]
  apply List.countP_congr
  intro f _
  rw [checkFieldValue_detail_iff]
  rfl

/-- C1.  The validator succeeds exactly when the unknown-key check and every
per-field check produced zero details, and otherwise returns one detail per
unknown key plus exactly one detail per field violating its rule — all
problems are collected, none are dropped; as a total function it never
throws. -/
theorem C1_validator_collects_every_detail (spec : TemplateSpec) (rawData : AttrBag) :
    (resultDetails (validateAndNormalizeRecordData spec rawData)).length
        = (unknownKeys spec rawData).length
          + spec.schema.fields.countP (violatesFieldRule rawData) ∧
      ((validateAndNormalizeRecordData spec rawData).isOk = true ↔
        unknownKeys spec rawData = []
          ∧ spec.schema.fields.countP (violatesFieldRule rawData) = 0) := by
  have hu := length_unknownDetailsOf spec rawData
  have hf := length_fieldDetails spec.schema.fields rawData
  rw [validateAndNormalizeRecordData_eq]
  split_ifs with h
  · rw [List.isEmpty_iff, List.append_eq_nil] at h
    have h1 : (unknownKeys spec rawData).length = 0 := by rw [← hu, h.1]; rfl
    have h2 : spec.schema.fields.countP (violatesFieldRule rawData) = 0 := by
      rw [← hf, h.2]; rfl
    refine ⟨by simp [resultDetails, h1, h2], ?_⟩
    simp [ValidationResult.isOk, List.length_eq_zero.mp h1, h2]
  · rw [List.isEmpty_iff] at h
    constructor
    · simp [resultDetails, hu, hf]
    · simp only [ValidationResult.isOk, Bool.false_eq_true, false_iff]
      rintro ⟨h1, h2⟩
      apply h
      have : (unknownDetailsOf spec rawData).length = 0 := by simp [hu, h1]
      have h3 : unknownDetailsOf spec rawData = [] := List.length_eq_zero.mp this
      have : (fieldDetails spec.schema.fields rawData).length = 0 := by rw [hf, h2]
      have h4 : fieldDetails spec.schema.fields rawData = [] := List.length_eq_zero.mp this
      rw [h3, h4]
      rfl

/-- The semantic half of the date check, as the claim states it: the digit
groups must be a real calendar date and parsing (`new Date(s+"T00:00:00Z")`)
followed by reading the UTC components back must reproduce the same year,
month and day. -/
def dateRoundTrips (s : String) : Bool :=
  match parseYMD s with
  | (y, m, d) =>
      (1 ≤ m && m ≤ 12 && 1 ≤ d && d ≤ 31) &&
        (match civilFromDays (daysFromCivil (y : Int) (m : Int) (d : Int)) with
          | (y2, m2, d2) => y2 == (y : Int) && m2 == (m : Int) && d2 == (d : Int))

theorem isValidISODateYYYYMMDD_eq (s : String) :
    isValidISODateYYYYMMDD s = (dateFormatMatches s && dateRoundTrips s) := by
  have e1 : ∀ k : ℕ, (!decide (k = 0)) = decide (1 ≤ k) := by
    intro k
    by_cases h : k = 0
    · simp [h]
    · simp [h, Nat.one_le_iff_ne_zero.mpr h]
  have e2 : ∀ j k : ℕ, (!decide (j < k)) = decide (k ≤ j) := by
    intro j k
    by_cases h : j < k
    · simp [h, Nat.not_le.mpr h]
    · simp [h, Nat.le_of_not_lt h]
  rw [isValidISODateYYYYMMDD, dateRoundTrips]
  rcases h : parseYMD s with ⟨y, m, d⟩
  rcases hc : civilFromDays (daysFromCivil (y : Int) (m : Int) (d : Int)) with ⟨y2, m2, d2⟩
  cases hf : dateFormatMatches s <;> split_ifs <;> simp_all [e1, e2]

/-- Schema with a single required date field, for the concrete part of C7. -/
def dateDemoSpec : TemplateSpec :=
  ⟨"DateDemo", ⟨[.date "d" none true], none⟩⟩

/-- C7.  A date field accepts a value exactly when it is a string that both
matches `YYYY-MM-DD` and round-trips through date parsing back to the same
components; `"2026-02-30"` matches the format yet is rejected with a
detail. -/
theorem C7_date_requires_format_and_roundtrip :
    (∀ (i : String) (l : Option String) (r : Bool) (v : Option Value),
        ((checkFieldValue (Field.date i l r) v).2).isSome = true ↔
          ∃ s, v = some (.str s) ∧ dateFormatMatches s = true ∧ dateRoundTrips s = true) ∧
      dateFormatMatches "2026-02-30" = true ∧
      validateAndNormalizeRecordData dateDemoSpec [("d", .str "2026-02-30")]
        = .err [⟨"d", "d must be a date in YYYY-MM-DD format"⟩] := by
  refine ⟨?_, by decide, by decide⟩
  intro i l r v
  unfold checkFieldValue
  by_cases hm : isMissingValue v = true
  · have hv : ∀ s, v = some (.str s) → s = "" := by
      intro s hs
      rw [hs] at hm
      simpa [isMissingValue] using hm
    cases hr : Field.required (.date i l r) <;>
      · simp only [hm, hr]
        constructor
        · intro h
          simp at h
        · rintro ⟨s, hs, hfmt, _⟩
          rw [hv s hs] at hfmt
          simp [dateFormatMatches] at hfmt
  · simp only [Bool.not_eq_true] at hm
    simp only [hm, Bool.and_false, if_false]
    rcases v with _ | (s | n | b | _) <;> simp_all [isValidISODateYYYYMMDD_eq]
    cases hf : dateFormatMatches s <;> cases ht : dateRoundTrips s <;> simp

/-- C9.  For `sum`/`avg`/`min`/`max` with an absent `fieldId`, the aggregator
returns `0` instead of raising a configuration error. -/
theorem C9_absent_fieldId_yields_zero (records : List RecordLike) (i lb : String)
    (fmt : Option MetricFormat) (fs : Option (List Filter)) :
    computeMetric records ⟨i, lb, .sum, none, fmt, fs⟩ = .fin 0 ∧
      computeMetric records ⟨i, lb, .avg, none, fmt, fs⟩ = .fin 0 ∧
      computeMetric records ⟨i, lb, .min, none, fmt, fs⟩ = .fin 0 ∧
      computeMetric records ⟨i, lb, .max, none, fmt, fs⟩ = .fin 0 := by
  refine ⟨?_, ?_, ?_, ?_⟩ <;> rfl

theorem computeMetric_count_char (records : List RecordLike) (metric : Metric)
    (hop : metric.op = .count) :
    computeMetric records metric = .fin ((metricFiltered records metric).length : ℚ) := by
  simp [computeMetric, metricFiltered, hop]

theorem computeMetric_fromValues (records : List RecordLike) (metric : Metric)
    (hop : metric.op ≠ .count) :
    computeMetric records metric
      = computeMetricFromValues metric.op (metricValues records metric) := by
  rcases hmo : metric.op with _ | _ | _ | _ | _
  case count => exact absurd hmo hop
  all_goals
    rcases hf : metric.fieldId with _ | f
    case none => simp [computeMetric, computeMetricFromValues, metricValues, hmo, hf]
    all_goals
      by_cases hf0 : f = ""
      · simp [computeMetric, computeMetricFromValues, metricValues, hmo, hf, hf0]
      · simp [computeMetric, computeMetricFromValues, metricValues,
          metricFiltered, hmo, hf, hf0]

/-- C4.  `count` is the size of the metric-filtered set regardless of
`fieldId`; every other op aggregates exactly the `toNumber`-parseable field
values, yielding `0` when none remain (in particular on an empty record
set), and `avg` divides the value sum by the number of collected values, not
by the record count. -/
theorem C4_metric_aggregation_semantics (records : List RecordLike) (metric : Metric) :
    (metric.op = .count →
        computeMetric records metric = .fin ((metricFiltered records metric).length : ℚ)) ∧
      (metric.op ≠ .count →
        computeMetric records metric
          = computeMetricFromValues metric.op (metricValues records metric)) ∧
      (metric.op = .avg → metricValues records metric ≠ [] →
        computeMetric records metric
          = jsDivNat ((metricValues records metric).foldl jsAdd (.fin 0))
              (metricValues records metric).length) ∧
      (metric.op ≠ .count → metricValues records metric = [] →
        computeMetric records metric = .fin 0) := by
  refine ⟨computeMetric_count_char records metric, computeMetric_fromValues records metric,
    ?_, ?_⟩
  · intro hop hne
    rw [computeMetric_fromValues records metric
      (by rw [hop]; exact fun h => MetricOp.noConfusion h)]
    have hie : (metricValues records metric).isEmpty = false := by
      simpa [List.isEmpty_iff] using hne
    rw [hop]
    simp [computeMetricFromValues, hie]
  · intro hop hemp
    rw [computeMetric_fromValues records metric hop, hemp]
    simp [computeMetricFromValues]

/-- The end-to-end budget schema of the specification's test scenario. -/
def budgetSpec : TemplateSpec :=
  ⟨"Budget",
    ⟨[.date "date" none true,
      .num "amount" none (some (.fin 0)) none true,
      .select "category" none ["Food", "Transport"] false], none⟩⟩

/-- A raw budget record (numeric string to be normalized). -/
def budgetRaw : AttrBag :=
  [("date", .str "2026-01-09"), ("amount", .str "42"), ("category", .str "Food")]

/-- The normalized form of `budgetRaw`. -/
def budgetData : AttrBag :=
  [("date", .str "2026-01-09"), ("amount", .num (.fin 42)), ("category", .str "Food")]

/-- Records for the aggregation witnesses. -/
def c4Records : List RecordLike :=
  [⟨[("amount", .str "10")], none⟩, ⟨[("amount", .num (.fin 5))], none⟩,
   ⟨[("amount", .str "x")], none⟩]

/-- A `count` metric without `fieldId`. -/
def c4Count : Metric := ⟨"c", "Count", .count, none, none, none⟩

/-- An `avg` metric over `amount`. -/
def c4Avg : Metric := ⟨"a", "Average", .avg, some "amount", none, none⟩

theorem C4_metric_witness :
    computeMetric c4Records c4Count = .fin ((metricFiltered c4Records c4Count).length : ℚ) ∧
      computeMetric c4Records c4Avg
        = jsDivNat ((metricValues c4Records c4Avg).foldl jsAdd (.fin 0))
            (metricValues c4Records c4Avg).length ∧
      computeMetric ([] : List RecordLike) c4Avg = .fin 0 :=
  ⟨(C4_metric_aggregation_semantics c4Records c4Count).1 rfl,
   (C4_metric_aggregation_semantics c4Records c4Avg).2.2.1 rfl (by decide),
   (C4_metric_aggregation_semantics ([] : List RecordLike) c4Avg).2.2.2 (by decide) (by decide)⟩

/-! ### Idempotence of validation (C5) -/

theorem fieldStore_key (rawData : AttrBag) (f : Field) (kv : String × Value)
    (h : fieldStore rawData f = some kv) : kv.1 = f.id := by
  unfold fieldStore at h
  rcases hc : checkFieldValue f (jsLookup rawData f.id) with ⟨od, ov⟩
  rw [hc] at h
  cases od with
  | some d => simp at h
  | none =>
      cases ov with
      | none => simp at h
      | some v =>
          simp only [Option.some.injEq] at h
          rw [← h]

theorem fieldNormalized_key_mem (fields : List Field) (rawData : AttrBag)
    (kv : String × Value) (h : kv ∈ fieldNormalized fields rawData) :
    kv.1 ∈ fields.map Field.id := by
  rw [fieldNormalized] at h
  rcases List.mem_filterMap.mp h with ⟨f, hf, hs⟩
  rw [fieldStore_key rawData f kv hs]
  exact List.mem_map_of_mem Field.id hf

theorem jsLookup_eq_none_of_not_mem (l : AttrBag) (k : String)
    (h : ∀ kv ∈ l, kv.1 ≠ k) : jsLookup l k = none := by
  rw [jsLookup, List.find?_eq_none.mpr]
  · rfl
  · intro kv hkv
    simpa using h kv hkv

theorem jsLookup_fieldNormalized (fields : List Field) (rawData : AttrBag)
    (hnd : (fields.map Field.id).Nodup) (f : Field) (hf : f ∈ fields) :
    jsLookup (fieldNormalized fields rawData) f.id = (fieldStore rawData f).map Prod.snd := by
  induction fields with
  | nil => cases hf
  | cons g gs ih =>
      rw [List.map_cons, List.nodup_cons] at hnd
      have hexp : fieldNormalized (g :: gs) rawData
          = (fieldStore rawData g).toList ++ fieldNormalized gs rawData := by
        cases hs : fieldStore rawData g <;> simp [fieldNormalized, hs]
      rcases List.mem_cons.mp hf with hfg | hfgs
      · subst hfg
        cases hs : fieldStore rawData f with
        | some kv =>
            have hk := fieldStore_key rawData f kv hs
            rw [hexp, hs]
            rcases kv with ⟨k, v⟩
            simp only at hk
            subst hk
            simp [jsLookup]
        | none =>
            rw [hexp, hs]
            simp only [Option.toList_none, List.nil_append, Option.map_none]
            apply jsLookup_eq_none_of_not_mem
            intro kv hkv hk
            exact hnd.1 (hk ▸ fieldNormalized_key_mem gs rawData kv hkv)
      · have hne : g.id ≠ f.id := by
          intro he
          exact hnd.1 (he ▸ List.mem_map_of_mem Field.id hfgs)
        rw [hexp]
        cases hs : fieldStore rawData g with
        | some kv =>
            have hk := fieldStore_key rawData g kv hs
            rcases kv with ⟨k, v⟩
            simp only at hk
            subst hk
            rw [Option.toList_some, List.singleton_append, jsLookup]
            rw [List.find?_cons_of_neg]
            · exact ih hnd.2 hfgs
            · simp [hne]
        | none => simpa using ih hnd.2 hfgs

theorem isMissingValue_num (n : JsNum) : isMissingValue (some (.num n)) = false := rfl

theorem isMissingValue_bool (b : Bool) : isMissingValue (some (.bool b)) = false := rfl

theorem isMissingValue_str (s : String) : isMissingValue (some (.str s)) = (s == "") := rfl

theorem checkFieldValue_store_idem (f : Field) (v : Option Value) (w : Value)
    (h : checkFieldValue f v = (none, some w)) :
    checkFieldValue f (some w) = (none, some w) := by
  by_cases hm : isMissingValue v = true
  · unfold checkFieldValue at h
    cases hr : f.required <;> simp [hm, hr] at h
  · simp only [Bool.not_eq_true] at hm
    unfold checkFieldValue at h
    simp only [hm, Bool.and_false, Bool.false_eq_true, if_false] at h
    rcases v with _ | (s | n | b | _)
    · simp [isMissingValue] at hm
    · -- v = some (.str s), a non-empty string
      rcases f with ⟨i, l, r⟩ | ⟨i, l, mn, mx, r⟩ | ⟨i, l, r⟩ | ⟨i, l, r⟩ | ⟨i, l, os, r⟩
      · obtain rfl : Value.str s = w := by simpa using h
        unfold checkFieldValue
        simp [hm]
      · simp only at h
        split_ifs at h with h1 h2 h3
        · simp at h
        · simp at h
        · simp at h
        · obtain rfl : Value.num (jsStringToNumber s) = w := by simpa using h
          unfold checkFieldValue
          simp [isMissingValue_num, h1, h2, h3]
      · simp only at h
        split_ifs at h with h1 h2
        · obtain rfl : Value.bool true = w := by simpa using h
          unfold checkFieldValue
          simp [isMissingValue_bool]
        · obtain rfl : Value.bool false = w := by simpa using h
          unfold checkFieldValue
          simp [isMissingValue_bool]
        · simp at h
      · simp only at h
        split_ifs at h with h1
        · obtain rfl : Value.str s = w := by simpa using h
          unfold checkFieldValue
          simp [hm, h1]
        · simp at h
      · simp only at h
        split_ifs at h with h1
        · obtain rfl : Value.str s = w := by simpa using h
          have hmem : s ∈ os := by simpa using h1
          unfold checkFieldValue
          simp [hm, h1, hmem]
        · simp at h
    · -- v = some (.num n)
      rcases f with ⟨i, l, r⟩ | ⟨i, l, mn, mx, r⟩ | ⟨i, l, r⟩ | ⟨i, l, r⟩ | ⟨i, l, os, r⟩
      · simp at h
      · simp only at h
        split_ifs at h with h1 h2 h3
        · simp at h
        · simp at h
        · simp at h
        · obtain rfl : Value.num n = w := by simpa using h
          unfold checkFieldValue
          simp [isMissingValue_num, h1, h2, h3]
      · simp at h
      · simp at h
      · simp at h
    · -- v = some (.bool b)
      rcases f with ⟨i, l, r⟩ | ⟨i, l, mn, mx, r⟩ | ⟨i, l, r⟩ | ⟨i, l, r⟩ | ⟨i, l, os, r⟩
      · simp at h
      · simp [JsNum.isNaN] at h
      · obtain rfl : Value.bool b = w := by simpa using h
        unfold checkFieldValue
        simp [isMissingValue_bool]
      · simp at h
      · simp at h
    · simp [isMissingValue] at hm

theorem checkFieldValue_none_of_skip (f : Field) (v : Option Value)
    (h : checkFieldValue f v = (none, none)) :
    checkFieldValue f none = (none, none) := by
  by_cases hm : isMissingValue v = true
  · unfold checkFieldValue at h ⊢
    cases hr : f.required with
    | true => simp [hm, hr] at h
    | false => simp [hr, isMissingValue]
  · -- a present value is either stored or faulted, never silently skipped
    simp only [Bool.not_eq_true] at hm
    unfold checkFieldValue at h
    simp only [hm, Bool.and_false, Bool.false_eq_true, if_false] at h
    rcases v with _ | (s | n | b | _)
    · simp [isMissingValue] at hm
    · rcases f with ⟨i, l, r⟩ | ⟨i, l, mn, mx, r⟩ | ⟨i, l, r⟩ | ⟨i, l, r⟩ | ⟨i, l, os, r⟩ <;>
        (simp only at h; (try split_ifs at h) <;> simp_all)
    · rcases f with ⟨i, l, r⟩ | ⟨i, l, mn, mx, r⟩ | ⟨i, l, r⟩ | ⟨i, l, r⟩ | ⟨i, l, os, r⟩ <;>
        (simp only at h; (try split_ifs at h) <;> simp_all)
    · rcases f with ⟨i, l, r⟩ | ⟨i, l, mn, mx, r⟩ | ⟨i, l, r⟩ | ⟨i, l, r⟩ | ⟨i, l, os, r⟩ <;>
        (simp only at h; (try split_ifs at h) <;> simp_all)
    · simp [isMissingValue] at hm

/-- C5.  Validation is idempotent on its own output: a successfully
normalized bag validates again to the identical bag with zero details
(field ids are unique within a schema, the Schema invariant). -/
theorem C5_validation_idempotent (spec : TemplateSpec) (rawData data : AttrBag)
    (hnd : (spec.schema.fields.map Field.id).Nodup)
    (h : validateAndNormalizeRecordData spec rawData = .ok data) :
    validateAndNormalizeRecordData spec data = .ok data := by
  rw [validateAndNormalizeRecordData_eq] at h
  by_cases hemp :
      (unknownDetailsOf spec rawData ++ fieldDetails spec.schema.fields rawData).isEmpty = true
  case neg =>
    rw [if_neg hemp] at h
    simp at h
  rw [if_pos hemp] at h
  have hdata : fieldNormalized spec.schema.fields rawData = data := by
    simpa using h
  rw [List.isEmpty_iff, List.append_eq_nil] at hemp
  obtain ⟨hu, hfd⟩ := hemp
  have hdet : ∀ f ∈ spec.schema.fields, (checkFieldValue f (jsLookup rawData f.id)).1 = none := by
    intro f hf
    exact List.filterMap_eq_nil_iff.mp hfd f hf
  have hlook : ∀ f ∈ spec.schema.fields,
      jsLookup data f.id = (fieldStore rawData f).map Prod.snd := by
    intro f hf
    rw [← hdata]
    exact jsLookup_fieldNormalized spec.schema.fields rawData hnd f hf
  have hstep : ∀ f ∈ spec.schema.fields,
      checkFieldValue f (jsLookup data f.id) = (none, (fieldStore rawData f).map Prod.snd) := by
    intro f hf
    rcases hs : fieldStore rawData f with _ | ⟨k, v⟩
    · have hskip : checkFieldValue f (jsLookup rawData f.id) = (none, none) := by
        rcases hc : checkFieldValue f (jsLookup rawData f.id) with ⟨od, ov⟩
        have h1 := hdet f hf
        rw [hc] at h1
        subst h1
        unfold fieldStore at hs
        rw [hc] at hs
        cases ov with
        | some v => simp at hs
        | none => rfl
      rw [hlook f hf, hs]
      simpa using checkFieldValue_none_of_skip f _ hskip
    · have hk : k = f.id := by
        have := fieldStore_key rawData f (k, v) hs
        simpa using this
      have hv : checkFieldValue f (jsLookup rawData f.id) = (none, some v) := by
        rcases hc : checkFieldValue f (jsLookup rawData f.id) with ⟨od, ov⟩
        have h1 := hdet f hf
        rw [hc] at h1
        subst h1
        unfold fieldStore at hs
        rw [hc] at hs
        cases ov with
        | none => simp at hs
        | some v' =>
            simp only [Option.some.injEq, Prod.mk.injEq] at hs
            rw [hs.2]
      rw [hlook f hf, hs]
      simpa using checkFieldValue_store_idem f _ v hv
  have hfd2 : fieldDetails spec.schema.fields data = [] := by
    apply List.filterMap_eq_nil_iff.mpr
    intro f hf
    rw [hstep f hf]
  have hnorm2 : fieldNormalized spec.schema.fields data
      = fieldNormalized spec.schema.fields rawData := by
    apply List.filterMap_congr
    intro f hf
    have h2 := hstep f hf
    rcases hs : fieldStore rawData f with _ | ⟨k, v⟩
    · rw [hs] at h2
      simp only [Option.map_none'] at h2
      unfold fieldStore
      rw [h2]
    · have hk : k = f.id := by
        have := fieldStore_key rawData f (k, v) hs
        simpa using this
      rw [hs] at h2
      simp only [Option.map_some'] at h2
      unfold fieldStore
      rw [h2]
      simp [hk]
  have hu2 : unknownDetailsOf spec data = [] := by
    apply List.filterMap_eq_nil_iff.mpr
    intro k hk
    rcases List.mem_map.mp hk with ⟨kv, hkv, rfl⟩
    have : kv.1 ∈ spec.schema.fields.map Field.id := by
      rw [← hdata] at hkv
      exact fieldNormalized_key_mem spec.schema.fields rawData kv hkv
    simp [this]
  rw [validateAndNormalizeRecordData_eq, hu2, hfd2, hnorm2, hdata]
  rfl

/-- Closed instance of C5: the normalized budget record revalidates to
itself. -/
theorem C5_validation_idempotent_witness :
    ((budgetSpec.schema.fields.map Field.id).Nodup
        ∧ validateAndNormalizeRecordData budgetSpec budgetRaw = .ok budgetData)
      ∧ validateAndNormalizeRecordData budgetSpec budgetData = .ok budgetData :=
  ⟨⟨by decide, by decide⟩,
    C5_validation_idempotent budgetSpec budgetRaw budgetData (by decide) (by decide)⟩

/-! ### Time-range filtering (C3, C6, C10) -/

/-- C10.  Whenever a time range resolves to a concrete interval and the time
field id is non-blank, `applyTimeRange` keeps no record whose time-field
value is missing, null, or unparseable (`getRecordDate` is `none` in exactly
those cases). -/
theorem C10_unparseable_dates_excluded (records : List RecordLike) (tf : String)
    (range : TimeRange) (now : Int) (s e : Int) (r : RecordLike)
    (htf : ¬(jsTrim tf).length = 0)
    (hres : resolveTimeRange range now = (some s, some e))
    (hr : getRecordDate r tf = none) :
    r ∉ applyTimeRange records (some tf) (some range) now := by
  intro hmem
  simp only [applyTimeRange] at hmem
  rw [if_neg htf, hres] at hmem
  have := (List.mem_filter.mp hmem).2
  rw [hr] at this
  exact Bool.false_ne_true this

/-- A record with an unparseable date, for the C10 witness. -/
def c10Record : RecordLike := ⟨[("d", .str "not-a-date")], none⟩

theorem C10_unparseable_witness :
    (¬(jsTrim "d").length = 0
        ∧ resolveTimeRange (.preset .all_time) 0 = (some 0, some 8640000000000000)
        ∧ getRecordDate c10Record "d" = none)
      ∧ c10Record ∉ applyTimeRange [c10Record] (some "d") (some (.preset .all_time)) 0 :=
  ⟨⟨by decide, rfl, by decide⟩,
    C10_unparseable_dates_excluded [c10Record] "d" (.preset .all_time) 0 0
      8640000000000000 c10Record (by decide) rfl (by decide)⟩

/-- A record dated before the Unix epoch (C3 counterexample). -/
def c3Record : RecordLike := ⟨[("d", .str "1969-06-15")], none⟩

/-- C3 counterexample.  `all_time` starts at `new Date(0)` — the epoch, not
the minimum representable date — so this record, whose time value parses as
a perfectly valid date in 1969, is dropped by `applyTimeRange` under the
`all_time` preset, contradicting the claim that every date-parseable record
is included. -/
theorem C3_pre_epoch_record_excluded :
    parseDate "1969-06-15" = some (-17280000000)
      ∧ applyTimeRange [c3Record] (some "d") (some (.preset .all_time)) 0 = [] := by
  exact ⟨by decide, by decide⟩

/-- C3 as amended.  `all_time` resolves to `[new Date(0), 8640000000000000)`,
i.e. it spans from the epoch (1970-01-01) to the maximum date; a record is
included exactly when its parsed day is within those bounds — dates from
1970-01-01 onward, not the full representable range. -/
theorem C3_all_time_epoch_to_max (records : List RecordLike) (tf : String)
    (now : Int) (r : RecordLike) (d : Int)
    (htf : ¬(jsTrim tf).length = 0) (hr : r ∈ records)
    (hd : getRecordDate r tf = some d)
    (h0 : 0 ≤ d) (h1 : d < 8640000000000000) :
    resolveTimeRange (.preset .all_time) now = (some 0, some 8640000000000000)
      ∧ r ∈ applyTimeRange records (some tf) (some (.preset .all_time)) now := by
  refine ⟨rfl, ?_⟩
  simp only [applyTimeRange]
  rw [if_neg htf]
  apply List.mem_filter.mpr
  refine ⟨hr, ?_⟩
  rw [hd]
  simp [h0, h1]

/-- A post-epoch record, for the C3 witness. -/
def c3InRecord : RecordLike := ⟨[("d", .str "2026-01-15")], none⟩

theorem C3_all_time_witness :
    (¬(jsTrim "d").length = 0 ∧ c3InRecord ∈ [c3InRecord]
        ∧ getRecordDate c3InRecord "d" = some 1768435200000
        ∧ (0 : Int) ≤ 1768435200000 ∧ (1768435200000 : Int) < 8640000000000000)
      ∧ resolveTimeRange (.preset .all_time) 0 = (some 0, some 8640000000000000)
      ∧ c3InRecord ∈ applyTimeRange [c3InRecord] (some "d")
          (some (.preset .all_time)) 0 :=
  ⟨⟨by decide, by decide, by decide, by decide, by decide⟩,
    C3_all_time_epoch_to_max [c3InRecord] "d" 0 c3InRecord 1768435200000
      (by decide) (by decide) (by decide) (by decide) (by decide)⟩

/-- A record dated on the later bound of a reversed explicit range. -/
def c6Record : RecordLike := ⟨[("d", .str "2026-01-03")], none⟩

/-- C6 counterexample.  Both bounds of `{from: 2026-01-05, to: 2026-01-03}`
parse as calendar dates, yet the record dated exactly `to` is not included:
with `from > to` the half-open interval is empty, so the claim's
unconditional "a record dated exactly `to` is included" fails. -/
theorem C6_reversed_bounds_exclude_to :
    parseDate "2026-01-05" = some 1767571200000
      ∧ parseDate "2026-01-03" = some 1767398400000
      ∧ applyTimeRange [c6Record] (some "d")
          (some (.explicit "2026-01-05" "2026-01-03")) 0 = [] := by
  exact ⟨by decide, by decide, by decide⟩

/-- C6 as amended.  An explicit range with both bounds parsed resolves to
`[from-midnight, to-midnight + 1 day)`; provided `from ≤ to`, a record dated
exactly `to` is included; and if either bound fails to parse the resolver
yields `[null, null]` and `applyTimeRange` returns its input unchanged. -/
theorem C6_explicit_range_inclusive (fromS toS tf : String) (now : Int)
    (records : List RecordLike) (r : RecordLike) (a b : Int)
    (hf : parseDate fromS = some a) (ht : parseDate toS = some b)
    (hab : startOfDay a ≤ startOfDay b)
    (htf : ¬(jsTrim tf).length = 0)
    (hr : r ∈ records) (hv : jsLookup r.data tf = some (.str toS)) :
    resolveTimeRange (.explicit fromS toS) now
        = (some (startOfDay a), some (addDays (startOfDay b) 1))
      ∧ r ∈ applyTimeRange records (some tf) (some (.explicit fromS toS)) now
      ∧ ∀ (f2 t2 : String) (recs : List RecordLike),
          parseDate f2 = none ∨ parseDate t2 = none →
            resolveTimeRange (.explicit f2 t2) now = (none, none)
              ∧ applyTimeRange recs (some tf) (some (.explicit f2 t2)) now = recs := by
  have hres : resolveTimeRange (.explicit fromS toS) now
      = (some (startOfDay a), some (addDays (startOfDay b) 1)) := by
    simp only [resolveTimeRange]
    rw [hf, ht]
  have hdate : getRecordDate r tf = some (startOfDay b) := by
    unfold getRecordDate
    rw [hv]
    simp only [jsValueToString]
    rw [ht]
  refine ⟨hres, ?_, ?_⟩
  · simp only [applyTimeRange]
    rw [if_neg htf, hres]
    apply List.mem_filter.mpr
    refine ⟨hr, ?_⟩
    rw [hdate]
    have hlt : startOfDay b < addDays (startOfDay b) 1 := by
      unfold addDays dayMs
      omega
    simp [hab, hlt]
  · intro f2 t2 recs hor
    have hres2 : resolveTimeRange (.explicit f2 t2) now = (none, none) := by
      simp only [resolveTimeRange]
      rcases hor with hn | hn
      · rw [hn]
      · rw [hn]
        rcases parseDate f2 <;> rfl
    refine ⟨hres2, ?_⟩
    simp only [applyTimeRange]
    rw [if_neg htf, hres2]

theorem C6_explicit_range_witness :
    (parseDate "2026-01-01" = some 1767225600000
        ∧ parseDate "2026-01-03" = some 1767398400000
        ∧ startOfDay 1767225600000 ≤ startOfDay 1767398400000
        ∧ ¬(jsTrim "d").length = 0
        ∧ c6Record ∈ [c6Record]
        ∧ jsLookup c6Record.data "d" = some (.str "2026-01-03"))
      ∧ resolveTimeRange (.explicit "2026-01-01" "2026-01-03") 0
          = (some (startOfDay 1767225600000), some (addDays (startOfDay 1767398400000) 1))
      ∧ c6Record ∈ applyTimeRange [c6Record] (some "d")
          (some (.explicit "2026-01-01" "2026-01-03")) 0
      ∧ ∀ (f2 t2 : String) (recs : List RecordLike),
          parseDate f2 = none ∨ parseDate t2 = none →
            resolveTimeRange (.explicit f2 t2) 0 = (none, none)
              ∧ applyTimeRange recs (some "d") (some (.explicit f2 t2)) 0 = recs :=
  ⟨⟨by decide, by decide, by decide, by decide, by decide, by decide⟩,
    C6_explicit_range_inclusive "2026-01-01" "2026-01-03" "d" 0 [c6Record] c6Record
      1767225600000 1767398400000 (by decide) (by decide) (by decide) (by decide)
      (by decide) (by decide)⟩

/-! ### Non-finite metric values (C2) -/

/-- Schema with one unbounded number field, for the C2 counterexample. -/
def c2Spec : TemplateSpec := ⟨"Inf", ⟨[.num "amount" none none none false], none⟩⟩

/-- A sum metric over `amount`. -/
def c2Metric : Metric := ⟨"t", "Total", .sum, some "amount", none, none⟩

/-- `1e308` (the JS literal), an in-range double (`tenPow308_eq`). -/
def tenPow308 : ℚ := 100000000000000000000000000000000000000000000000000000000000000000000000000000000000000000000000000000000000000000000000000000000000000000000000000000000000000000000000000000000000000000000000000000000000000000000000000000000000000000000000000000000000000000000000000000000000000000000000000000000000000000000

/-- `tenPow308` is `10^308`. -/
theorem tenPow308_eq : tenPow308 = 10 ^ 308 := by norm_num [tenPow308]

/-- Two records holding `1e308`, whose IEEE sum overflows. -/
def c2OverflowRecords : List RecordLike :=
  [⟨[("amount", .num (.fin tenPow308))], none⟩,
   ⟨[("amount", .num (.fin tenPow308))], none⟩]

/-- C2 counterexample.  Non-finite results reach the metric in two ways.
Input: the validator accepts the string `"Infinity"` on an unbounded number
field (normalizing it to the number `Infinity`), and `computeMetric` then
returns `Infinity` for a `sum` over that field — even `NaN` when
`Infinity` and `-Infinity` meet.  Overflow: `Number("1e309")` is already
`Infinity`, and a `sum` over two finite `1e308` values overflows the
double range to `Infinity`.  Both contradict the claimed finite-or-zero
guarantee. -/
theorem C2_infinity_reaches_metric :
    validateAndNormalizeRecordData c2Spec [("amount", .str "Infinity")]
        = .ok [("amount", .num .inf)]
      ∧ computeMetric [⟨[("amount", .num .inf)], none⟩] c2Metric = .inf
      ∧ computeMetric
          [⟨[("amount", .num .inf)], none⟩, ⟨[("amount", .num .negInf)], none⟩]
          c2Metric = .nan
      ∧ jsStringToNumber "1e309" = .inf
      ∧ computeMetric c2OverflowRecords c2Metric = .inf
      ∧ JsNum.inf.isFinite = false ∧ JsNum.inf ≠ .fin 0 := by
  have hT0 : (0 : ℚ) < doubleOverflowThreshold := by
    rw [doubleOverflowThreshold_eq]; norm_num
  have h309 : jsStringToNumber "1e309" = .inf := by
    have hstep : jsStringToNumber "1e309"
        = jsOfRat (applyExp ((1 : ℕ) : ℚ) 309) := rfl
    rw [hstep]
    have hval : applyExp ((1 : ℕ) : ℚ) 309 = 10 ^ 309 := by
      unfold applyExp
      norm_num [show Int.toNat 309 = 309 from rfl]
    rw [hval]
    unfold jsOfRat
    rw [if_pos (by rw [doubleOverflowThreshold_eq]; norm_num)]
  have e1 : jsAdd (.fin 0) (.fin tenPow308) = .fin tenPow308 := by
    show jsOfRat (0 + tenPow308) = .fin tenPow308
    rw [zero_add]
    exact jsOfRat_fin _
      (by rw [tenPow308_eq, doubleOverflowThreshold_eq]; norm_num)
      (by rw [tenPow308_eq, doubleOverflowThreshold_eq]; norm_num)
  have e2 : jsAdd (.fin tenPow308) (.fin tenPow308) = .inf := by
    show jsOfRat (tenPow308 + tenPow308) = .inf
    unfold jsOfRat
    rw [if_pos (by rw [tenPow308_eq, doubleOverflowThreshold_eq]; norm_num)]
  have hover : computeMetric c2OverflowRecords c2Metric = .inf := by
    rw [computeMetric_fromValues c2OverflowRecords c2Metric (by decide)]
    have hvals : metricValues c2OverflowRecords c2Metric
        = [.fin tenPow308, .fin tenPow308] := by decide
    rw [hvals]
    show computeMetricFromValues .sum [.fin tenPow308, .fin tenPow308] = .inf
    unfold computeMetricFromValues
    rw [if_neg (by decide :
      ¬(([JsNum.fin tenPow308, JsNum.fin tenPow308].isEmpty) = true))]
    show [JsNum.fin tenPow308, JsNum.fin tenPow308].foldl jsAdd (.fin 0) = .inf
    rw [List.foldl_cons, e1, List.foldl_cons, e2, List.foldl_nil]
  exact ⟨by decide, by decide, by decide, h309, hover, rfl, by decide⟩

theorem JsNum.isFinite_iff (a : JsNum) : a.isFinite = true ↔ ∃ q, a = .fin q := by
  cases a <;> simp [JsNum.isFinite]

theorem jsMin_fin (a b : ℚ) :
    jsMin (.fin a) (.fin b) = if jsLt (.fin b) (.fin a) = true then .fin b else .fin a := rfl

theorem jsMax_fin (a b : ℚ) :
    jsMax (.fin a) (.fin b) = if jsLt (.fin a) (.fin b) = true then .fin b else .fin a := rfl

/-- Magnitude a value contributes to a sum: `|q|` for finite values, `0`
otherwise. -/
def JsNum.absQ : JsNum → ℚ
  | .fin q => |q|
  | _ => 0

/-- Total magnitude of the finite values of a list. -/
def ratAbsSum (l : List JsNum) : ℚ := (l.map JsNum.absQ).sum

theorem absQ_nonneg (v : JsNum) : 0 ≤ v.absQ := by
  cases v <;> simp [JsNum.absQ, abs_nonneg]

theorem ratAbsSum_cons (v : JsNum) (l : List JsNum) :
    ratAbsSum (v :: l) = v.absQ + ratAbsSum l := by
  unfold ratAbsSum; rw [List.map_cons, List.sum_cons]

theorem ratAbsSum_nonneg (l : List JsNum) : 0 ≤ ratAbsSum l := by
  induction l with
  | nil => simp [ratAbsSum]
  | cons v vs ih =>
      rw [ratAbsSum_cons]
      exact add_nonneg (absQ_nonneg v) ih

theorem ratAbsSum_mono {l1 l2 : List JsNum} (h : l1.Sublist l2) :
    ratAbsSum l1 ≤ ratAbsSum l2 := by
  induction h with
  | slnil => exact le_refl _
  | cons v _ ih => rw [ratAbsSum_cons]; exact le_add_of_nonneg_of_le (absQ_nonneg v) ih
  | cons₂ v _ ih => rw [ratAbsSum_cons, ratAbsSum_cons]; exact add_le_add_left ih _

/-- Folding `jsAdd` over finite values stays finite (and tracks the exact
sum) as long as the accumulated magnitude stays below the overflow boundary:
the triangle inequality keeps every partial sum in range, so no saturation
step fires. -/
theorem foldl_jsAdd_bounded (l : List JsNum) : ∀ acc : ℚ,
    (∀ v ∈ l, v.isFinite = true) →
    |acc| + ratAbsSum l < doubleOverflowThreshold →
    ∃ s : ℚ, l.foldl jsAdd (.fin acc) = .fin s ∧ |s| ≤ |acc| + ratAbsSum l := by
  induction l with
  | nil =>
      intro acc _ _
      exact ⟨acc, rfl, by simp [ratAbsSum]⟩
  | cons v vs ih =>
      intro acc hfin hb
      obtain ⟨q, rfl⟩ := (JsNum.isFinite_iff v).mp (hfin v (List.mem_cons_self v vs))
      rw [List.foldl_cons]
      rw [ratAbsSum_cons, show JsNum.absQ (.fin q) = |q| from rfl] at hb
      have h0 : 0 ≤ ratAbsSum vs := ratAbsSum_nonneg vs
      have htri := abs_add acc q
      have hstep : |acc + q| < doubleOverflowThreshold := by linarith
      have hadd : jsAdd (.fin acc) (.fin q) = .fin (acc + q) := by
        show jsOfRat (acc + q) = .fin (acc + q)
        exact jsOfRat_fin _ (abs_lt.mp hstep).2 (abs_lt.mp hstep).1
      rw [hadd]
      have hb2 : |acc + q| + ratAbsSum vs < doubleOverflowThreshold := by linarith
      obtain ⟨s, hs, hsb⟩ :=
        ih (acc + q) (fun x hx => hfin x (List.mem_cons_of_mem _ hx)) hb2
      refine ⟨s, hs, ?_⟩
      rw [ratAbsSum_cons, show JsNum.absQ (.fin q) = |q| from rfl]
      linarith

theorem foldl_jsMin_finite (l : List JsNum) : ∀ acc : JsNum,
    (∀ v ∈ l, v.isFinite = true) →
    (acc.isFinite = true ∨ (acc = .inf ∧ l ≠ [])) →
    (l.foldl jsMin acc).isFinite = true := by
  induction l with
  | nil =>
      intro acc _ h
      rcases h with h | ⟨_, hne⟩
      · exact h
      · exact absurd rfl hne
  | cons v vs ih =>
      intro acc hl h
      rw [List.foldl_cons]
      apply ih _ (fun x hx => hl x (List.mem_cons_of_mem v hx))
      left
      obtain ⟨qv, rfl⟩ := (JsNum.isFinite_iff v).mp (hl v (List.mem_cons_self v vs))
      rcases h with hfin | ⟨rfl, _⟩
      · obtain ⟨qa, rfl⟩ := (JsNum.isFinite_iff acc).mp hfin
        rw [jsMin_fin]
        split_ifs <;> rfl
      · rfl

theorem foldl_jsMax_finite (l : List JsNum) : ∀ acc : JsNum,
    (∀ v ∈ l, v.isFinite = true) →
    (acc.isFinite = true ∨ (acc = .negInf ∧ l ≠ [])) →
    (l.foldl jsMax acc).isFinite = true := by
  induction l with
  | nil =>
      intro acc _ h
      rcases h with h | ⟨_, hne⟩
      · exact h
      · exact absurd rfl hne
  | cons v vs ih =>
      intro acc hl h
      rw [List.foldl_cons]
      apply ih _ (fun x hx => hl x (List.mem_cons_of_mem v hx))
      left
      obtain ⟨qv, rfl⟩ := (JsNum.isFinite_iff v).mp (hl v (List.mem_cons_self v vs))
      rcases h with hfin | ⟨rfl, _⟩
      · obtain ⟨qa, rfl⟩ := (JsNum.isFinite_iff acc).mp hfin
        rw [jsMax_fin]
        split_ifs <;> rfl
      · rfl

theorem mem_of_mem_applyFilters (records : List RecordLike) (fs : Option (List Filter))
    (r : RecordLike) (h : r ∈ applyFilters records fs) : r ∈ records := by
  unfold applyFilters at h
  rcases fs with _ | (_ | ⟨f, fs⟩)
  · exact h
  · exact h
  · exact List.mem_of_mem_filter h

theorem mem_of_mem_metricFiltered (records : List RecordLike) (metric : Metric)
    (r : RecordLike) (h : r ∈ metricFiltered records metric) : r ∈ records := by
  unfold metricFiltered at h
  rcases hf : metric.filters with _ | (_ | ⟨f, fs⟩) <;> rw [hf] at h
  · exact h
  · exact h
  · exact mem_of_mem_applyFilters records (some (f :: fs)) r h

/-- Record-level finiteness of the metric's field transfers to the collected
value list. -/
theorem metricValues_finite_of_records (records : List RecordLike) (metric : Metric)
    (h : ∀ rec ∈ records,
        (toNumber (jsLookup rec.data (metric.fieldId.getD ""))).all JsNum.isFinite
          = true) :
    ∀ v ∈ metricValues records metric, v.isFinite = true := by
  intro v hv
  rcases hfld : metric.fieldId with _ | f <;>
    simp only [metricValues, hfld] at hv
  · simp at hv
  · by_cases hf0 : f = ""
    · rw [if_pos hf0] at hv; simp at hv
    · rw [if_neg hf0] at hv
      rcases List.mem_filterMap.mp hv with ⟨rec, hrec, htn⟩
      have hm := h rec (mem_of_mem_metricFiltered records metric rec hrec)
      rw [hfld] at hm
      simp only [Option.getD_some] at hm
      rw [htn] at hm
      simpa using hm

theorem applyFilters_sublist (records : List RecordLike) (fs : Option (List Filter)) :
    (applyFilters records fs).Sublist records := by
  unfold applyFilters
  rcases fs with _ | (_ | ⟨f, fs⟩)
  · exact List.Sublist.refl records
  · exact List.Sublist.refl records
  · exact List.filter_sublist records

theorem metricFiltered_sublist (records : List RecordLike) (metric : Metric) :
    (metricFiltered records metric).Sublist records := by
  unfold metricFiltered
  rcases hf : metric.filters with _ | (_ | ⟨f, fs⟩)
  · exact List.Sublist.refl records
  · exact List.Sublist.refl records
  · exact applyFilters_sublist records (some (f :: fs))

/-- The values a metric aggregates form a sublist (subsequence with
multiplicity) of the parseable values of its field over all records. -/
theorem metricValues_sublist (records : List RecordLike) (metric : Metric) :
    (metricValues records metric).Sublist
      (records.filterMap fun r =>
        toNumber (jsLookup r.data (metric.fieldId.getD ""))) := by
  rcases hfld : metric.fieldId with _ | f
  · simp only [metricValues, hfld]
    exact List.nil_sublist _
  · simp only [metricValues, hfld, Option.getD_some]
    by_cases hf0 : f = ""
    · rw [if_pos hf0]; exact List.nil_sublist _
    · rw [if_neg hf0]
      exact List.Sublist.filterMap _ (metricFiltered_sublist records metric)

/-- The aggregator result is a finite number (hence "finite or exactly 0")
whenever every collected value is finite and the total collected magnitude
stays below the double overflow boundary, so the `sum`/`avg` folds never
saturate. -/
theorem computeMetric_finite (records : List RecordLike) (metric : Metric)
    (hval : ∀ v ∈ metricValues records metric, v.isFinite = true)
    (habs : ratAbsSum (metricValues records metric) < doubleOverflowThreshold) :
    (computeMetric records metric).isFinite = true := by
  by_cases hop : metric.op = .count
  · rw [computeMetric_count_char records metric hop]; rfl
  · rw [computeMetric_fromValues records metric hop]
    have hbound : |(0 : ℚ)| + ratAbsSum (metricValues records metric)
        < doubleOverflowThreshold := by simpa using habs
    unfold computeMetricFromValues
    by_cases hemp : (metricValues records metric).isEmpty = true
    · rw [if_pos hemp]; rfl
    · rw [if_neg hemp]
      have hne : metricValues records metric ≠ [] := by
        simpa [List.isEmpty_iff] using hemp
      rcases hmo : metric.op with _ | _ | _ | _ | _
      · obtain ⟨s, hs, _⟩ :=
          foldl_jsAdd_bounded (metricValues records metric) 0 hval hbound
        rw [hs]; rfl
      · exact absurd hmo hop
      · obtain ⟨s, hs, _⟩ :=
          foldl_jsAdd_bounded (metricValues records metric) 0 hval hbound
        show (jsDivNat ((metricValues records metric).foldl jsAdd (.fin 0))
          (metricValues records metric).length).isFinite = true
        rw [hs]
        simp only [jsDivNat]
        rw [if_neg (by simpa using hne)]
        rfl
      · exact foldl_jsMin_finite _ _ hval (Or.inr ⟨rfl, hne⟩)
      · exact foldl_jsMax_finite _ _ hval (Or.inr ⟨rfl, hne⟩)

theorem insertGrouped_flat (map : List (String × List RecordLike)) (k : String)
    (r : RecordLike) (e : String × List RecordLike) (x : RecordLike)
    (he : e ∈ insertGrouped map k r) (hx : x ∈ e.2) :
    (∃ e2 ∈ map, x ∈ e2.2) ∨ x = r := by
  unfold insertGrouped at he
  split_ifs at he with hc
  · rcases List.mem_map.mp he with ⟨e2, he2, rfl⟩
    by_cases hk : (e2.1 == k) = true
    · rw [if_pos hk] at hx
      simp only at hx
      rcases List.mem_append.mp hx with h2 | h2
      · exact Or.inl ⟨e2, he2, h2⟩
      · simp at h2
        exact Or.inr h2
    · rw [if_neg hk] at hx
      exact Or.inl ⟨e2, he2, hx⟩
  · rcases List.mem_append.mp he with h2 | h2
    · exact Or.inl ⟨e, h2, hx⟩
    · simp only [List.mem_singleton] at h2
      subst h2
      simp at hx
      exact Or.inr hx

theorem foldl_groupBy_sub (fieldId : String) (R : List RecordLike) :
    ∀ (l : List RecordLike) (acc : List (String × List RecordLike)),
      (∀ e ∈ acc, ∀ x ∈ e.2, x ∈ R) → (∀ y ∈ l, y ∈ R) →
      ∀ e ∈ l.foldl
          (fun m r => insertGrouped m (normalizeGroupKey (jsLookup r.data fieldId)) r) acc,
        ∀ x ∈ e.2, x ∈ R := by
  intro l
  induction l with
  | nil => intro acc hacc _ e he x hx; exact hacc e he x hx
  | cons r rs ih =>
      intro acc hacc hl e he x hx
      rw [List.foldl_cons] at he
      refine ih _ ?_ (fun y hy => hl y (List.mem_cons_of_mem r hy)) e he x hx
      intro e2 he2 x2 hx2
      rcases insertGrouped_flat acc _ r e2 x2 he2 hx2 with ⟨e3, he3, hx3⟩ | rfl
      · exact hacc e3 he3 x2 hx3
      · exact hl _ (List.mem_cons_self _ _)

theorem groupByField_sub (records : List RecordLike) (fieldId : String) :
    ∀ e ∈ groupByField records fieldId, ∀ x ∈ e.2, x ∈ records := by
  unfold groupByField
  exact foldl_groupBy_sub fieldId records records []
    (by intro e he; simp at he) (fun y hy => hy)

theorem foldl_groupBy_sublist (fieldId : String) :
    ∀ (l : List RecordLike) (acc : List (String × List RecordLike))
      (done : List RecordLike),
      (∀ e ∈ acc, e.2.Sublist done) →
      ∀ e ∈ l.foldl
          (fun m r => insertGrouped m (normalizeGroupKey (jsLookup r.data fieldId)) r) acc,
        e.2.Sublist (done ++ l) := by
  intro l
  induction l with
  | nil =>
      intro acc done hacc e he
      rw [List.foldl_nil] at he
      simpa using hacc e he
  | cons r rs ih =>
      intro acc done hacc e he
      rw [List.foldl_cons] at he
      have hstep : ∀ e2 ∈ insertGrouped acc (normalizeGroupKey (jsLookup r.data fieldId)) r,
          e2.2.Sublist (done ++ [r]) := by
        intro e2 he2
        unfold insertGrouped at he2
        split_ifs at he2 with hc
        · rcases List.mem_map.mp he2 with ⟨e3, he3, rfl⟩
          by_cases hk : (e3.1 == normalizeGroupKey (jsLookup r.data fieldId)) = true
          · rw [if_pos hk]
            exact (hacc e3 he3).append (List.Sublist.refl [r])
          · rw [if_neg hk]
            exact (hacc e3 he3).trans (List.sublist_append_left done [r])
        · rcases List.mem_append.mp he2 with h3 | h3
          · exact (hacc e2 h3).trans (List.sublist_append_left done [r])
          · simp only [List.mem_singleton] at h3
            subst h3
            exact List.sublist_append_right done [r]
      have hmain := ih (insertGrouped acc _ r) (done ++ [r]) hstep e he
      rwa [List.append_assoc, List.singleton_append] at hmain

/-- Each partition of `groupByField` is a sublist (subsequence with
multiplicity) of the input records. -/
theorem groupByField_sublist (records : List RecordLike) (fieldId : String) :
    ∀ e ∈ groupByField records fieldId, e.2.Sublist records := by
  unfold groupByField
  intro e he
  have h := foldl_groupBy_sublist fieldId records [] []
    (by intro e2 he2; simp at he2) e he
  simpa using h

/-- C2 as amended.  The finite-or-zero guarantee needs two premises: every
`toNumber`-parseable value of the metric's field must be finite, and the
total magnitude of those parseable values must stay below the IEEE double
overflow boundary `2^1024 - 2^970`.  Both are needed: the validator and
`toNumber` accept non-finite inputs such as the string `"Infinity"`, and
IEEE summation of finite doubles overflows to `Infinity` past the double
range (`1e308 + 1e308`) — see the counterexample for both failure modes.
Under the premises every partial sum stays in range (each value list
aggregated — top-level or per group partition — is a sublist of the full
parseable-value list), so `computeMetric` and every grouped row value are
finite. -/
theorem C2_finite_under_bounded_inputs (records : List RecordLike) (metric : Metric)
    (h : ∀ rec ∈ records,
        (toNumber (jsLookup rec.data (metric.fieldId.getD ""))).all JsNum.isFinite
          = true)
    (hb : ratAbsSum (records.filterMap fun rec =>
            toNumber (jsLookup rec.data (metric.fieldId.getD "")))
          < doubleOverflowThreshold) :
    (computeMetric records metric).isFinite = true
      ∧ ∀ (groupBy : GroupBy) (row : GroupRow),
          row ∈ computeGroupedMetric records groupBy metric →
            row.value.isFinite = true := by
  constructor
  · exact computeMetric_finite records metric
      (metricValues_finite_of_records records metric h)
      (lt_of_le_of_lt (ratAbsSum_mono (metricValues_sublist records metric)) hb)
  · intro gb row hrow
    unfold computeGroupedMetric at hrow
    have h1 : row ∈ (groupRows records gb metric).mergeSort (rowSortLe (groupSortDir gb)) := by
      rcases hl : gb.limit with _ | n <;> simp only [applyGroupLimit, hl] at hrow
      · exact hrow
      · split_ifs at hrow with hn
        · exact List.take_subset _ _ hrow
        · exact hrow
    have h2 : row ∈ groupRows records gb metric :=
      ((List.mergeSort_perm _ _).mem_iff).mp h1
    rcases List.mem_map.mp h2 with ⟨e, he, rfl⟩
    have hsubrec : e.2.Sublist records := groupByField_sublist records gb.fieldId e he
    apply computeMetric_finite
    · apply metricValues_finite_of_records
      intro rec hrec
      exact h rec (hsubrec.subset hrec)
    · refine lt_of_le_of_lt (le_trans (ratAbsSum_mono (metricValues_sublist e.2 metric))
        (ratAbsSum_mono (List.Sublist.filterMap _ hsubrec))) hb

/-- Records with finite numeric values of small total magnitude, for the C2
witness. -/
def c2FiniteRecords : List RecordLike :=
  [⟨[("amount", .num (.fin 10))], none⟩, ⟨[("amount", .str "5")], none⟩]

theorem C2_finite_bounded_witness :
    ((∀ rec ∈ c2FiniteRecords,
        (toNumber (jsLookup rec.data (c2Metric.fieldId.getD ""))).all JsNum.isFinite
          = true)
      ∧ ratAbsSum (c2FiniteRecords.filterMap fun rec =>
            toNumber (jsLookup rec.data (c2Metric.fieldId.getD "")))
          < doubleOverflowThreshold)
      ∧ (computeMetric c2FiniteRecords c2Metric).isFinite = true
      ∧ ∀ (groupBy : GroupBy) (row : GroupRow),
          row ∈ computeGroupedMetric c2FiniteRecords groupBy c2Metric →
            row.value.isFinite = true := by
  have hlist : (c2FiniteRecords.filterMap fun rec =>
      toNumber (jsLookup rec.data (c2Metric.fieldId.getD "")))
        = [JsNum.fin 10, JsNum.fin 5] := by decide
  have hb : ratAbsSum (c2FiniteRecords.filterMap fun rec =>
      toNumber (jsLookup rec.data (c2Metric.fieldId.getD "")))
        < doubleOverflowThreshold := by
    rw [hlist, doubleOverflowThreshold_eq]
    norm_num [ratAbsSum, JsNum.absQ]
  exact ⟨⟨by decide, hb⟩,
    (C2_finite_under_bounded_inputs c2FiniteRecords c2Metric (by decide) hb).1,
    (C2_finite_under_bounded_inputs c2FiniteRecords c2Metric (by decide) hb).2⟩

/-! ### Grouped-metric sorting (C8) -/

theorem jsNumLe_refl (a : JsNum) : jsNumLe a a = true := by
  cases a <;> simp [jsNumLe]

theorem jsNumLe_trans (a b c : JsNum) (h1 : jsNumLe a b = true) (h2 : jsNumLe b c = true) :
    jsNumLe a c = true := by
  cases a <;> cases b <;> cases c <;> simp_all [jsNumLe]
  exact le_trans h1 h2

theorem jsNumLe_total (a b : JsNum) : (jsNumLe a b || jsNumLe b a) = true := by
  cases a <;> cases b <;> simp [jsNumLe]
  exact le_total _ _

/-- The sign of a clamped value is the sign of the exact value: saturation
to `±Infinity` only happens away from zero, so it never flips the
comparator's verdict. -/
theorem jsOfRat_isPos (q : ℚ) : (jsOfRat q).isPos = decide (0 < q) := by
  have hT0 : (0 : ℚ) < doubleOverflowThreshold := by
    rw [doubleOverflowThreshold_eq]; norm_num
  unfold jsOfRat
  split_ifs with h1 h2
  · simp [JsNum.isPos, lt_of_lt_of_le hT0 h1]
  · have hneg : q < 0 := lt_of_le_of_lt h2 (by linarith)
    simp [JsNum.isPos, not_lt.mpr (le_of_lt hneg)]
  · rfl

/-- Agreement of the model order with the JS comparator `a - b`: wherever the
subtraction is not NaN, `jsNumLe` is exactly "the comparator is not
positive" (overflow saturation of the subtraction preserves its sign). -/
theorem jsNumLe_eq_comparator (a b : JsNum) (h : jsSub a b ≠ .nan) :
    jsNumLe a b = !(jsSub a b).isPos := by
  cases a <;> cases b <;>
    first
    | exact absurd rfl h
    | rfl
    | (rename_i x y
       show jsNumLe (.fin x) (.fin y) = !(jsOfRat (x - y)).isPos
       rw [jsOfRat_isPos]
       simp only [jsNumLe, sub_pos]
       by_cases hxy : x ≤ y
       · simp [hxy, not_lt.mpr hxy]
       · simp [hxy, lt_of_not_le hxy])

theorem rowSortLe_trans (dir : SortDir) (a b c : GroupRow)
    (h1 : rowSortLe dir a b = true) (h2 : rowSortLe dir b c = true) :
    rowSortLe dir a c = true := by
  cases dir <;> simp only [rowSortLe] at h1 h2 ⊢
  · exact jsNumLe_trans _ _ _ h1 h2
  · exact jsNumLe_trans _ _ _ h2 h1

theorem rowSortLe_total (dir : SortDir) (a b : GroupRow) :
    (rowSortLe dir a b || rowSortLe dir b a) = true := by
  cases dir <;> simp only [rowSortLe]
  · exact jsNumLe_total _ _
  · exact jsNumLe_total _ _

theorem rowSortLe_eq_dirLe (dir : SortDir) (a b : GroupRow)
    (ha : a.value.isFinite = true) (hb : b.value.isFinite = true) :
    rowSortLe dir a b = dirLe dir a b := by
  obtain ⟨qa, hqa⟩ := (JsNum.isFinite_iff _).mp ha
  obtain ⟨qb, hqb⟩ := (JsNum.isFinite_iff _).mp hb
  cases dir <;> simp [rowSortLe, dirLe, hqa, hqb, jsNumLe, jsLeB]

theorem rowSortLe_of_eq (dir : SortDir) (a b : GroupRow) (h : a.value = b.value) :
    rowSortLe dir a b = true := by
  cases dir <;> simp only [rowSortLe] <;> rw [h] <;> exact jsNumLe_refl _

theorem pairwise_of_forall_mem {α : Type _} (r : α → α → Prop) :
    ∀ l : List α, (∀ a ∈ l, ∀ b ∈ l, r a b) → l.Pairwise r := by
  intro l
  induction l with
  | nil => intro _; exact List.Pairwise.nil
  | cons x xs ih =>
      intro h
      refine List.Pairwise.cons ?_ (ih ?_)
      · exact fun b hb => h x (List.mem_cons_self x xs) b (List.mem_cons_of_mem x hb)
      · exact fun a ha b hb =>
          h a (List.mem_cons_of_mem x ha) b (List.mem_cons_of_mem x hb)

theorem contains_eq_any (ks : List String) (k : String) :
    ks.contains k = ks.any (fun s => s == k) := by
  induction ks with
  | nil => rfl
  | cons x xs ih =>
      rw [List.contains_cons, List.any_cons, ih]
      by_cases hx : x = k
      · rw [hx]
      · have h1 : (k == x) = false := beq_eq_false_iff_ne.mpr (Ne.symm hx)
        have h2 : (x == k) = false := beq_eq_false_iff_ne.mpr hx
        rw [h1, h2]

theorem any_map_fst {β : Type _} (m : List (String × β)) (k : String) :
    ((m.map Prod.fst).any fun s => s == k) = m.any fun e => e.1 == k := by
  induction m with
  | nil => rfl
  | cons e es ih =>
      rw [List.map_cons, List.any_cons, List.any_cons, ih]

theorem insertGrouped_keys (map : List (String × List RecordLike)) (k : String)
    (r : RecordLike) :
    (insertGrouped map k r).map Prod.fst
      = if (map.map Prod.fst).contains k then map.map Prod.fst
        else map.map Prod.fst ++ [k] := by
  unfold insertGrouped
  have hc : ((map.map Prod.fst).contains k) = map.any (fun e => e.1 == k) := by
    rw [contains_eq_any, any_map_fst]
  rw [hc]
  by_cases hany : map.any (fun e => e.1 == k) = true
  · rw [if_pos hany, if_pos hany, List.map_map]
    apply List.map_congr_left
    intro e _
    by_cases he : (e.1 == k) = true <;> simp [he, Function.comp]
  · rw [if_neg hany, if_neg hany, List.map_append]
    rfl

theorem foldl_groupBy_keys (fieldId : String) :
    ∀ (l : List RecordLike) (acc : List (String × List RecordLike)),
      (l.foldl
          (fun m r => insertGrouped m (normalizeGroupKey (jsLookup r.data fieldId)) r) acc).map
          Prod.fst
        = l.foldl
            (fun ks r =>
              let k := normalizeGroupKey (jsLookup r.data fieldId)
              if ks.contains k then ks else ks ++ [k])
            (acc.map Prod.fst) := by
  intro l
  induction l with
  | nil => intro acc; rfl
  | cons r rs ih =>
      intro acc
      rw [List.foldl_cons, List.foldl_cons, ih, insertGrouped_keys]

theorem groupRows_keys (records : List RecordLike) (groupBy : GroupBy) (metric : Metric) :
    (groupRows records groupBy metric).map GroupRow.key
      = firstSeenKeys records groupBy.fieldId := by
  unfold groupRows firstSeenKeys groupByField
  rw [List.map_map]
  exact foldl_groupBy_keys groupBy.fieldId records []

/-- C8.  `computeGroupedMetric` is exactly "stable-sort the first-seen-order
partition rows by metric value in the requested direction (default
descending), then truncate to the limit": the output before truncation is
sorted (JS `<=` on the values, flipped for `desc`), rows with equal metric
value keep their first-seen relative order (the filter at every value is
unchanged), and the row keys before sorting are the keys in discovery
order.  Stated for finite metric values; with NaN values the JS comparator
is inconsistent and ECMA leaves the order implementation-defined. -/
theorem C8_grouped_sort_stable_truncate (records : List RecordLike)
    (groupBy : GroupBy) (metric : Metric)
    (hfin : ∀ row ∈ groupRows records groupBy metric, row.value.isFinite = true) :
    computeGroupedMetric records groupBy metric
        = applyGroupLimit groupBy.limit
            ((groupRows records groupBy metric).mergeSort
              (rowSortLe (groupSortDir groupBy)))
      ∧ List.Pairwise (fun a b => dirLe (groupSortDir groupBy) a b = true)
          ((groupRows records groupBy metric).mergeSort
            (rowSortLe (groupSortDir groupBy)))
      ∧ (∀ q : JsNum,
          ((groupRows records groupBy metric).mergeSort
                (rowSortLe (groupSortDir groupBy))).filter
              (fun row => row.value == q)
            = (groupRows records groupBy metric).filter (fun row => row.value == q))
      ∧ (groupRows records groupBy metric).map GroupRow.key
          = firstSeenKeys records groupBy.fieldId := by
  set dir := groupSortDir groupBy with hdir
  set rows := groupRows records groupBy metric with hrows
  have htrans : ∀ a b c : GroupRow,
      rowSortLe dir a b = true → rowSortLe dir b c = true → rowSortLe dir a c = true :=
    rowSortLe_trans dir
  have htotal : ∀ a b : GroupRow, (rowSortLe dir a b || rowSortLe dir b a) = true :=
    rowSortLe_total dir
  refine ⟨rfl, ?_, ?_, groupRows_keys records groupBy metric⟩
  · have hsorted := List.sorted_mergeSort htrans htotal rows
    have hmem : ∀ a ∈ rows.mergeSort (rowSortLe dir), a.value.isFinite = true := by
      intro a ha
      exact hfin a (((List.mergeSort_perm rows (rowSortLe dir)).mem_iff).mp ha)
    refine hsorted.imp_of_mem ?_
    intro a b ha hb hle
    rw [← rowSortLe_eq_dirLe dir a b (hmem a ha) (hmem b hb)]
    exact hle
  · intro q
    set p : GroupRow → Bool := fun row => row.value == q with hp
    have hApw : (rows.filter p).Pairwise (fun a b => rowSortLe dir a b = true) := by
      apply pairwise_of_forall_mem
      intro a ha b hb
      have hpa : a.value = q := by simpa [hp] using List.of_mem_filter ha
      have hpb : b.value = q := by simpa [hp] using List.of_mem_filter hb
      exact rowSortLe_of_eq dir a b (hpa.trans hpb.symm)
    have hsub : (rows.filter p).Sublist (rows.mergeSort (rowSortLe dir)) :=
      List.mergeSort_stable htrans htotal hApw
        (List.filter_sublist rows : (rows.filter p).Sublist rows)
    have hsub2 : (rows.filter p).Sublist ((rows.mergeSort (rowSortLe dir)).filter p) := by
      have hstep := hsub.filter p
      have hff : (rows.filter p).filter p = rows.filter p :=
        List.filter_eq_self.mpr fun a ha => List.of_mem_filter ha
      rwa [hff] at hstep
    have hperm : ((rows.mergeSort (rowSortLe dir)).filter p).Perm (rows.filter p) :=
      (List.mergeSort_perm rows (rowSortLe dir)).filter p
    exact (hsub2.eq_of_length hperm.length_eq.symm).symm

/-- Records with a duplicated group key, for the C8 witness. -/
def c8Records : List RecordLike :=
  [⟨[("cat", .str "A")], none⟩, ⟨[("cat", .str "B")], none⟩,
   ⟨[("cat", .str "A")], none⟩]

/-- Group-by on `cat` with default sort and no limit. -/
def c8GroupBy : GroupBy := ⟨"cat", none, none, none⟩

/-- A count metric, for the C8 witness. -/
def c8Count : Metric := ⟨"m", "Count", .count, none, none, none⟩

theorem C8_grouped_sort_witness :
    (∀ row ∈ groupRows c8Records c8GroupBy c8Count, row.value.isFinite = true)
      ∧ (computeGroupedMetric c8Records c8GroupBy c8Count
            = applyGroupLimit c8GroupBy.limit
                ((groupRows c8Records c8GroupBy c8Count).mergeSort
                  (rowSortLe (groupSortDir c8GroupBy)))
          ∧ List.Pairwise (fun a b => dirLe (groupSortDir c8GroupBy) a b = true)
              ((groupRows c8Records c8GroupBy c8Count).mergeSort
                (rowSortLe (groupSortDir c8GroupBy)))
          ∧ (∀ q : JsNum,
              ((groupRows c8Records c8GroupBy c8Count).mergeSort
                    (rowSortLe (groupSortDir c8GroupBy))).filter
                  (fun row => row.value == q)
                = (groupRows c8Records c8GroupBy c8Count).filter
                    (fun row => row.value == q))
          ∧ (groupRows c8Records c8GroupBy c8Count).map GroupRow.key
              = firstSeenKeys c8Records c8GroupBy.fieldId) :=
  ⟨by decide,
    C8_grouped_sort_stable_truncate c8Records c8GroupBy c8Count (by decide)⟩

end TemplateBuilder
